import Mathlib

/-!
Verification development for the `noterra` volumetric renderer
(`src/VolumeRenderer.js`).

The fragment shader and the atlas-management methods are shallowly embedded
over exact rationals: every GLSL `float` / JS `number` becomes a `ℚ` (the
standard exact-arithmetic reading of the floating-point source), GLSL
vectors become a `Vec3` record, and the transcendental primitives the
claims do not depend on (`exp`, the lighting dot products and distances,
the half-float encoding `THREE.DataUtils.toHalfFloat`) are abstracted as
oracle function parameters.  Division on `ℚ` is total with `q / 0 = 0`;
the one place the shader can actually divide by zero (the per-step
position interpolation at a degenerate ray segment) is additionally
instrumented with an explicit flag.
-/

/-- GLSL `vec3` with exact rational components. -/
structure Vec3 where
  x : ℚ
  y : ℚ
  z : ℚ
deriving DecidableEq, Repr

namespace Vec3

/-- Componentwise addition (GLSL `+` on `vec3`). -/
def add (a b : Vec3) : Vec3 := ⟨a.x + b.x, a.y + b.y, a.z + b.z⟩

/-- Componentwise subtraction (GLSL `-` on `vec3`). -/
def sub (a b : Vec3) : Vec3 := ⟨a.x - b.x, a.y - b.y, a.z - b.z⟩

/-- Componentwise (Hadamard) product (GLSL `*` on `vec3`). -/
def hmul (a b : Vec3) : Vec3 := ⟨a.x * b.x, a.y * b.y, a.z * b.z⟩

/-- Scalar multiplication (GLSL `float * vec3`). -/
def smul (c : ℚ) (a : Vec3) : Vec3 := ⟨c * a.x, c * a.y, c * a.z⟩

/-- Componentwise negation (GLSL unary `-`). -/
def neg (a : Vec3) : Vec3 := ⟨-a.x, -a.y, -a.z⟩

/-- GLSL componentwise `min`. -/
def min3 (a b : Vec3) : Vec3 := ⟨min a.x b.x, min a.y b.y, min a.z b.z⟩

/-- GLSL componentwise `max`. -/
def max3 (a b : Vec3) : Vec3 := ⟨max a.x b.x, max a.y b.y, max a.z b.z⟩

/-- GLSL `dot` product. -/
def dot (a b : Vec3) : ℚ := a.x * b.x + a.y * b.y + a.z * b.z

/-- All components of `a` are nonnegative. -/
def Nonneg (a : Vec3) : Prop := 0 ≤ a.x ∧ 0 ≤ a.y ∧ 0 ≤ a.z

end Vec3

/-- GLSL `step(edge, x)`: `0.0` if `x < edge`, else `1.0`. -/
def stepF (edge x : ℚ) : ℚ := if x < edge then 0 else 1

/-- GLSL `clamp(x, lo, hi) = min(max(x, lo), hi)`. -/
def clampQ (x lo hi : ℚ) : ℚ := min (max x lo) hi

/-- GLSL scalar `mix(a, b, t) = a * (1 - t) + b * t`. -/
def mixQ (a b t : ℚ) : ℚ := a * (1 - t) + b * t

/-- GLSL componentwise `mix` on `vec3` with a scalar interpolant. -/
def mix3 (a b : Vec3) (t : ℚ) : Vec3 := ⟨mixQ a.x b.x t, mixQ a.y b.y t, mixQ a.z b.z t⟩

/-- The Hermite polynomial `t*t*(3-2*t)` used by GLSL `smoothstep`. -/
def hermite (t : ℚ) : ℚ := t * t * (3 - 2 * t)

/-- GLSL `smoothstep(e0, e1, x)` = `t*t*(3-2*t)` with `t = clamp((x-e0)/(e1-e0), 0, 1)`. -/
def smoothstepQ (e0 e1 x : ℚ) : ℚ :=
  hermite (clampQ ((x - e0) / (e1 - e0)) 0 1)

theorem stepF_nonneg (edge x : ℚ) : 0 ≤ stepF edge x := by
  unfold stepF; split <;> norm_num

theorem stepF_le_one (edge x : ℚ) : stepF edge x ≤ 1 := by
  unfold stepF; split <;> norm_num

theorem stepF_of_lt {edge x : ℚ} (h : x < edge) : stepF edge x = 0 := by
  simp [stepF, h]

theorem stepF_of_ge {edge x : ℚ} (h : edge ≤ x) : stepF edge x = 1 := by
  simp [stepF, not_lt.mpr h]

theorem clampQ_nonneg (x hi : ℚ) (hhi : 0 ≤ hi) : 0 ≤ clampQ x 0 hi :=
  le_min (le_max_right x 0) hhi

theorem clampQ_le (x lo hi : ℚ) : clampQ x lo hi ≤ hi := min_le_right _ _

theorem clampQ_zero (lo hi : ℚ) (hlo : lo ≤ 0) (hhi : 0 ≤ hi) : clampQ 0 lo hi = 0 := by
  unfold clampQ
  rw [max_eq_left hlo, min_eq_left hhi]

theorem hermite_nonneg {t : ℚ} (h0 : 0 ≤ t) (h1 : t ≤ 1) : 0 ≤ hermite t := by
  unfold hermite; nlinarith

theorem hermite_le_one {t : ℚ} (h0 : 0 ≤ t) (h1 : t ≤ 1) : hermite t ≤ 1 := by
  unfold hermite
  nlinarith [mul_nonneg (mul_self_nonneg (1 - t)) (by linarith : (0:ℚ) ≤ 1 + 2 * t)]

theorem smoothstepQ_nonneg (e0 e1 x : ℚ) : 0 ≤ smoothstepQ e0 e1 x :=
  hermite_nonneg (le_min (le_max_right _ 0) one_pos.le) (min_le_right _ _)

theorem smoothstepQ_le_one (e0 e1 x : ℚ) : smoothstepQ e0 e1 x ≤ 1 :=
  hermite_le_one (le_min (le_max_right _ 0) one_pos.le) (min_le_right _ _)

/-! ### Ray-box clipping stage (`fragmentShader main`, lines 200-227)

The shader transforms the camera ray into the volume's local space and
intersects it with the clip box.  The local-space ray origin and
(normalized) direction are taken as inputs; everything from `boxMin`
downwards is embedded literally. -/

/-- Inputs of the ray-box clipping stage: local-space ray and box data. -/
structure RaySetup where
  rayOrigin : Vec3
  rayDirection : Vec3
  volumeOrigin : Vec3
  volumeMax : Vec3
  clipMin : Vec3
  clipMax : Vec3

namespace RaySetup

/-- `vec3 boxMin = max(volumeOrigin, clipMin);` -/
def boxMin (r : RaySetup) : Vec3 := Vec3.max3 r.volumeOrigin r.clipMin

/-- `vec3 boxMax = min(volumeMax, clipMax);` -/
def boxMax (r : RaySetup) : Vec3 := Vec3.min3 r.volumeMax r.clipMax

/-- `vec3 t1 = (boxMin - rayOrigin) / rayDirection;` (componentwise). -/
def t1 (r : RaySetup) : Vec3 :=
  ⟨(r.boxMin.x - r.rayOrigin.x) / r.rayDirection.x,
   (r.boxMin.y - r.rayOrigin.y) / r.rayDirection.y,
   (r.boxMin.z - r.rayOrigin.z) / r.rayDirection.z⟩

/-- `vec3 t2 = (boxMax - rayOrigin) / rayDirection;` (componentwise). -/
def t2 (r : RaySetup) : Vec3 :=
  ⟨(r.boxMax.x - r.rayOrigin.x) / r.rayDirection.x,
   (r.boxMax.y - r.rayOrigin.y) / r.rayDirection.y,
   (r.boxMax.z - r.rayOrigin.z) / r.rayDirection.z⟩

/-- `vec3 tMin = min(t1, t2);` -/
def tMin (r : RaySetup) : Vec3 := Vec3.min3 r.t1 r.t2

/-- `vec3 tMax = max(t1, t2);` -/
def tMax (r : RaySetup) : Vec3 := Vec3.max3 r.t1 r.t2

/-- `float tNear = max(max(tMin.x, tMin.y), tMin.z);` -/
def tNear (r : RaySetup) : ℚ := max (max r.tMin.x r.tMin.y) r.tMin.z

/-- `float tFar = min(min(tMax.x, tMax.y), tMax.z);` -/
def tFar (r : RaySetup) : ℚ := min (min r.tMax.x r.tMax.y) r.tMax.z

/-- `bool insideBox = all(greaterThanEqual(rayOrigin, boxMin)) && all(lessThanEqual(rayOrigin, boxMax));` -/
def insideBox (r : RaySetup) : Bool :=
  decide (r.boxMin.x ≤ r.rayOrigin.x) && decide (r.boxMin.y ≤ r.rayOrigin.y) &&
  decide (r.boxMin.z ≤ r.rayOrigin.z) && decide (r.rayOrigin.x ≤ r.boxMax.x) &&
  decide (r.rayOrigin.y ≤ r.boxMax.y) && decide (r.rayOrigin.z ≤ r.boxMax.z)

/-- `if (!insideBox && (tNear > tFar || tFar < 0.0)) { discard; }` -/
def discards (r : RaySetup) : Bool :=
  !r.insideBox && (decide (r.tNear > r.tFar) || decide (r.tFar < 0))

/-- `vec3 entryPoint = insideBox ? rayOrigin : rayOrigin + rayDirection * tNear;` -/
def entryPoint (r : RaySetup) : Vec3 :=
  if r.insideBox then r.rayOrigin else Vec3.add r.rayOrigin (Vec3.smul r.tNear r.rayDirection)

/-- `vec3 exitPoint = rayOrigin + rayDirection * tFar;` -/
def exitPoint (r : RaySetup) : Vec3 :=
  Vec3.add r.rayOrigin (Vec3.smul r.tFar r.rayDirection)

end RaySetup

/-- C1: For every ray whose local-space origin lies outside the clipped box
(the intersection of the volume extent with `[clipMin, clipMax]`) and whose
slab intersection yields `tNear > tFar` or `tFar < 0`, the fragment is
discarded: every such ray missing the (possibly clipped) box produces a
discarded (fully transparent) pixel. -/
theorem C1_ray_miss_discards (r : RaySetup)
    (houtside : r.insideBox = false)
    (hmiss : r.tNear > r.tFar ∨ r.tFar < 0) :
    r.discards = true := by
  unfold RaySetup.discards
  rw [houtside]
  rcases hmiss with h | h <;> simp [h]

/-- Witness for C1 at a concrete ray: origin at `(5,5,5)`, direction `(1,0,0)`,
box `[(-1,-1,-1), (1,1,1)]` (clip planes wide open at `±10`); the ray points
away from the box, `tFar = -4 < 0`, and the fragment is discarded. -/
theorem C1_ray_miss_discards_witness :
    (RaySetup.insideBox ⟨⟨5, 5, 5⟩, ⟨1, 0, 0⟩, ⟨-1, -1, -1⟩, ⟨1, 1, 1⟩, ⟨-10, -10, -10⟩, ⟨10, 10, 10⟩⟩ = false) ∧
    RaySetup.discards ⟨⟨5, 5, 5⟩, ⟨1, 0, 0⟩, ⟨-1, -1, -1⟩, ⟨1, 1, 1⟩, ⟨-10, -10, -10⟩, ⟨10, 10, 10⟩⟩ = true := by
  refine ⟨?_, ?_⟩
  · decide
  · refine C1_ray_miss_discards _ (by decide) (Or.inr ?_)
    norm_num [RaySetup.tFar, RaySetup.tMax, RaySetup.t1, RaySetup.t2, RaySetup.boxMin,
      RaySetup.boxMax, Vec3.min3, Vec3.max3]

/-! ### Atlas allocation (`createAtlasTexture`, lines 720-776)

`Math.ceil(Math.pow(timeCount, 1/3))` is embedded with exact real semantics
as the least natural number whose cube reaches `timeCount`, and
`Math.ceil(timeCount / (nx*ny))` as exact ceiling division. -/

/-- Search upward from `k` for the first cube reaching `n` (with enough fuel). -/
def ceilCbrtAux (n : ℕ) : ℕ → ℕ → ℕ
  | 0, k => k
  | fuel + 1, k => if n ≤ k ^ 3 then k else ceilCbrtAux n fuel (k + 1)

/-- `Math.ceil(Math.pow(n, 1/3))` in exact arithmetic: the least `k` with `n ≤ k^3`. -/
def ceilCbrt (n : ℕ) : ℕ := ceilCbrtAux n (n + 1) 0

theorem ceilCbrtAux_sat (n : ℕ) : ∀ fuel k, n ≤ (k + fuel) ^ 3 →
    n ≤ (ceilCbrtAux n fuel k) ^ 3 := by
  intro fuel
  induction fuel with
  | zero => intro k h; simpa using h
  | succ m ih =>
    intro k h
    unfold ceilCbrtAux
    split
    · assumption
    · exact ih (k + 1) (by rw [show k + 1 + m = k + (m + 1) by omega]; exact h)

theorem ceilCbrtAux_min (n : ℕ) : ∀ fuel k j, k ≤ j → n ≤ j ^ 3 →
    ceilCbrtAux n fuel k ≤ j := by
  intro fuel
  induction fuel with
  | zero => intro k j hkj _; simpa using hkj
  | succ m ih =>
    intro k j hkj hj
    unfold ceilCbrtAux
    split
    · exact hkj
    · rename_i hk
      have hkj' : k + 1 ≤ j := by
        rcases Nat.lt_or_ge k j with h | h
        · omega
        · exact absurd (hkj.antisymm h ▸ hj) hk
      exact ih (k + 1) j hkj' hj

/-- `ceilCbrt n` is exactly `⌈n^(1/3)⌉`: its cube reaches `n` and it is the
least natural number doing so. -/
theorem ceilCbrt_spec (n : ℕ) :
    n ≤ (ceilCbrt n) ^ 3 ∧ ∀ j, n ≤ j ^ 3 → ceilCbrt n ≤ j := by
  constructor
  · have h : n ≤ (n + 1) ^ 3 := le_trans (Nat.le_succ n) (Nat.le_self_pow (by norm_num) _)
    exact ceilCbrtAux_sat n (n + 1) 0 (by simpa using h)
  · intro j hj
    exact ceilCbrtAux_min n (n + 1) 0 j (Nat.zero_le j) hj

/-- `Math.ceil(a / b)` on naturals (exact, for `b > 0`). -/
def ceilDivNat (a b : ℕ) : ℕ := (a + b - 1) / b

theorem le_mul_ceilDivNat (a : ℕ) {b : ℕ} (hb : 0 < b) : a ≤ b * ceilDivNat a b := by
  unfold ceilDivNat
  have hdm := Nat.div_add_mod (a + b - 1) b
  have hlt : (a + b - 1) % b < b := Nat.mod_lt _ hb
  omega

/-- The atlas allocation computed by `createAtlasTexture`: grid resolution
`(nx, ny, nz)` and the voxel buffer size `voxelCount`. -/
structure AtlasAlloc where
  atlasResolutionX : ℕ
  atlasResolutionY : ℕ
  atlasResolutionZ : ℕ
  textureSizeX : ℕ
  textureSizeY : ℕ
  textureSizeZ : ℕ
  voxelCount : ℕ

/-- `createAtlasTexture(volumeResolution, ..., timeCount)`:
`nx = ceil(timeCount^(1/3))`, `ny = nx`, `nz = ceil(timeCount / (nx*ny))`,
texture sides `volumeResolution * (nx, ny, nz)`, buffer of
`textureSizeX * textureSizeY * textureSizeZ` voxels. -/
def createAtlasTexture (volumeResolutionX volumeResolutionY volumeResolutionZ timeCount : ℕ) :
    AtlasAlloc :=
  let atlasResolutionX := ceilCbrt timeCount
  let atlasResolutionY := atlasResolutionX
  let atlasResolutionZ := ceilDivNat timeCount (atlasResolutionX * atlasResolutionY)
  let textureSizeX := volumeResolutionX * atlasResolutionX
  let textureSizeY := volumeResolutionY * atlasResolutionY
  let textureSizeZ := volumeResolutionZ * atlasResolutionZ
  ⟨atlasResolutionX, atlasResolutionY, atlasResolutionZ,
   textureSizeX, textureSizeY, textureSizeZ,
   textureSizeX * textureSizeY * textureSizeZ⟩

/-- C3: for every `timeCount ≥ 1`, `createAtlasTexture` computes
`nx = ny = ceil(timeCount^(1/3))` and `nz = ceil(timeCount/(nx*ny))`,
allocates a buffer of `perVolumeResolution * (nx, ny, nz)` voxels, and the
capacity satisfies `nx*ny*nz ≥ timeCount`; in particular `timeCount = 100`
with `perVolumeResolution = (1,1,1)` yields `nx = ny = 5`, `nz = 4`. -/
theorem C3_createAtlasTexture_capacity (vx vy vz timeCount : ℕ) (ht : 1 ≤ timeCount) :
    (createAtlasTexture vx vy vz timeCount).atlasResolutionX = ceilCbrt timeCount ∧
    (createAtlasTexture vx vy vz timeCount).atlasResolutionY = ceilCbrt timeCount ∧
    (createAtlasTexture vx vy vz timeCount).atlasResolutionZ =
      ceilDivNat timeCount (ceilCbrt timeCount * ceilCbrt timeCount) ∧
    (createAtlasTexture vx vy vz timeCount).voxelCount =
      (vx * (createAtlasTexture vx vy vz timeCount).atlasResolutionX) *
      (vy * (createAtlasTexture vx vy vz timeCount).atlasResolutionY) *
      (vz * (createAtlasTexture vx vy vz timeCount).atlasResolutionZ) ∧
    timeCount ≤ (createAtlasTexture vx vy vz timeCount).atlasResolutionX *
      (createAtlasTexture vx vy vz timeCount).atlasResolutionY *
      (createAtlasTexture vx vy vz timeCount).atlasResolutionZ ∧
    (createAtlasTexture 1 1 1 100).atlasResolutionX = 5 ∧
    (createAtlasTexture 1 1 1 100).atlasResolutionY = 5 ∧
    (createAtlasTexture 1 1 1 100).atlasResolutionZ = 4 := by
  have hcc : 1 ≤ ceilCbrt timeCount := by
    rcases Nat.eq_zero_or_pos (ceilCbrt timeCount) with h | h
    · exfalso
      have := (ceilCbrt_spec timeCount).1
      rw [h] at this
      simp at this
      omega
    · exact h
  refine ⟨rfl, rfl, rfl, rfl, ?_, by decide, by decide, by decide⟩
  have hsq : 0 < ceilCbrt timeCount * ceilCbrt timeCount := Nat.mul_pos hcc hcc
  have := le_mul_ceilDivNat timeCount hsq
  simpa [createAtlasTexture] using this

/-- Witness for C3 at `timeCount = 9`, `perVolumeResolution = (2,3,4)`:
the capacity bound `nx*ny*nz = 3*3*1 ≥ 9` holds. -/
theorem C3_createAtlasTexture_capacity_witness :
    (1 ≤ 9 ∧ 9 ≤ (createAtlasTexture 2 3 4 9).atlasResolutionX *
      (createAtlasTexture 2 3 4 9).atlasResolutionY *
      (createAtlasTexture 2 3 4 9).atlasResolutionZ) ∧
    (createAtlasTexture 1 1 1 100).atlasResolutionZ = 4 :=
  ⟨⟨by decide, (C3_createAtlasTexture_capacity 2 3 4 9 (by decide)).2.2.2.2.1⟩,
   (C3_createAtlasTexture_capacity 2 3 4 9 (by decide)).2.2.2.2.2.2.2⟩

/-! ### Material permutation builder (`updateMaterial`, lines 604-707)

The options record, the derived preprocessor defines, and the set of
uniforms referenced by the new `uniforms` object are embedded; the bound
set is built as a list mirroring the source's sequence of conditional
assignments (the initial `UniformsLib["lights"]` merge is represented by
the single marker `lightStructs`). -/

/-- The recognized option flags of `updateMaterial` (with their source
defaults applied by `defaultRenderOptions`); `customFunction` records
whether a custom shader function was supplied (`!== null`). -/
structure RenderOptions where
  customFunction : Bool
  useVolumetricDepthTest : Bool
  useExtinctionCoefficient : Bool
  useValueAsExtinctionCoefficient : Bool
  usePointLights : Bool
  useDirectionalLights : Bool
  useRandomStart : Bool
  renderMeanValue : Bool
  invertNormals : Bool
  renderNormals : Bool
  raySteps : ℕ
deriving DecidableEq, Repr

/-- `updateMaterial({})`: the defaults of the destructured options. -/
def defaultRenderOptions : RenderOptions :=
  ⟨false, false, true, false, false, false, true, false, false, false, 64⟩

/-- The preprocessor defines derived from the options (lines 608-622). -/
structure Defines where
  USE_CUSTOM_VALUE_FUNCTION : Bool
  USE_VOLUMETRIC_DEPTH_TEST : Bool
  RENDER_MEAN_VALUE : Bool
  USE_EXTINCTION_COEFFICIENT : Bool
  USE_VALUE_AS_EXTINCTION_COEFFICIENT : Bool
  USE_POINT_LIGHTS : Bool
  USE_DIR_LIGHTS : Bool
  USE_RANDOM_START : Bool
  INVERT_NORMALS : Bool
  RENDER_NORMALS : Bool
  RAY_STEPS : ℕ
deriving DecidableEq, Repr

/-- `const defines = {...}` of `updateMaterial`. -/
def makeDefines (o : RenderOptions) : Defines :=
  ⟨o.customFunction, o.useVolumetricDepthTest, o.renderMeanValue,
   o.useExtinctionCoefficient, o.useValueAsExtinctionCoefficient,
   o.usePointLights, o.useDirectionalLights, o.useRandomStart,
   o.invertNormals, o.renderNormals, o.raySteps⟩

/-- The uniform keys `updateMaterial` may place on the new `uniforms`
object; `lightStructs` stands for the merged `UniformsLib["lights"]`
entries (the `pointLights` / `directionalLights` struct arrays). -/
inductive UniformKey where
  | lightStructs
  | farTopLeft | farTopRight | farBottomLeft | farBottomRight
  | nearPlane | farPlane
  | volumeOrigin | volumePosition | volumeMatrix | volumeInverseMatrix
  | time | random
  | minCutoffValue | maxCutoffValue | cutoffFadeRange
  | valueMultiplier | valueAdded | clipMin | clipMax
  | normalEpsilon
  | palette | minPaletteValue | maxPaletteValue | alphaMultiplier
  | depthTexture
  | volumeSize
  | volumeAtlas | atlasResolution | volumeResolution | voxelSize | timeCount
  | extinctionCoefficient | extinctionMultiplier
deriving DecidableEq, Repr

open UniformKey in
/-- The keys assigned to the `uniforms` object by `updateMaterial`
(lines 624-686), in source order. -/
def updateMaterialUniforms (o : RenderOptions) : List UniformKey :=
  let defines := makeDefines o
  let lights := defines.USE_POINT_LIGHTS || defines.USE_DIR_LIGHTS
  (if lights then [lightStructs] else [])
  ++ [farTopLeft, farTopRight, farBottomLeft, farBottomRight]
  ++ (if defines.USE_VOLUMETRIC_DEPTH_TEST then [nearPlane, farPlane] else [])
  ++ [volumeOrigin, volumePosition, volumeMatrix, volumeInverseMatrix, time, random,
      minCutoffValue, maxCutoffValue, cutoffFadeRange, valueMultiplier, valueAdded,
      clipMin, clipMax]
  ++ (if defines.RENDER_NORMALS ||
        (!defines.RENDER_MEAN_VALUE && (defines.USE_POINT_LIGHTS || defines.USE_DIR_LIGHTS))
      then [normalEpsilon] else [])
  ++ (if !defines.RENDER_NORMALS
      then [palette, minPaletteValue, maxPaletteValue, alphaMultiplier] else [])
  ++ (if defines.USE_VOLUMETRIC_DEPTH_TEST then [depthTexture] else [])
  ++ (if defines.USE_CUSTOM_VALUE_FUNCTION then [volumeSize]
      else [volumeAtlas, atlasResolution, volumeResolution, voxelSize, timeCount])
  ++ (if !defines.RENDER_MEAN_VALUE
      then (if !defines.USE_VALUE_AS_EXTINCTION_COEFFICIENT
            then [extinctionCoefficient] else []) ++ [extinctionMultiplier]
      else [])

/-- A uniform key is bound by `updateMaterial` iff it is assigned on the
new `uniforms` object. -/
def uniformBound (o : RenderOptions) (u : UniformKey) : Bool :=
  decide (u ∈ updateMaterialUniforms o)

/-- Counterexample to C8: with `usePointLights = true` and
`renderMeanValue = true` the claim predicts the light-struct uniforms are
not bound (lighting is unused by the mean-value accumulation), but
`updateMaterial` merges `UniformsLib["lights"]` whenever any light flag is
enabled, regardless of `renderMeanValue` — so they are bound. -/
theorem C8_lights_mean_counterexample :
    (let o := { defaultRenderOptions with usePointLights := true, renderMeanValue := true }
     o.usePointLights = true ∧ o.renderMeanValue = true ∧
     ¬ (uniformBound o .lightStructs =
        ((o.usePointLights || o.useDirectionalLights) && !o.renderMeanValue))) := by
  refine ⟨rfl, rfl, ?_⟩
  decide

theorem uniformKey_mem_ite {α : Type} {c : Prop} [Decidable c] {l1 l2 : List α} {a : α} :
    (a ∈ if c then l1 else l2) ↔ ((c ∧ a ∈ l1) ∨ (¬c ∧ a ∈ l2)) := by
  split <;> simp [*]

/-- C8 (amended): `updateMaterial` binds the palette group — `palette`,
`minPaletteValue`, `maxPaletteValue`, `alphaMultiplier` — iff `renderNormals`
is disabled, and binds the light-struct uniforms iff some light flag is
enabled (independently of `renderMeanValue`, which the claim wrongly
excluded). -/
theorem C8_uniform_binding (o : RenderOptions) :
    uniformBound o .palette = !o.renderNormals ∧
    uniformBound o .minPaletteValue = !o.renderNormals ∧
    uniformBound o .maxPaletteValue = !o.renderNormals ∧
    uniformBound o .alphaMultiplier = !o.renderNormals ∧
    uniformBound o .lightStructs = (o.usePointLights || o.useDirectionalLights) := by
  obtain ⟨cf, dt, ec, vec, pl, dl, rs, mv, inv, rn, steps⟩ := o
  refine ⟨?_, ?_, ?_, ?_, ?_⟩ <;>
  · cases rn <;> cases pl <;> cases dl <;>
      simp [uniformBound, updateMaterialUniforms, makeDefines, uniformKey_mem_ite]

/-! ### Normal-estimation fallback (`fragmentShader main`, lines 286-304)

`delta` is the forward-difference gradient; the shader replaces it by the
fixed vector `(0, 1, 0)` when its squared length is below `1e-7` before
normalizing.  `normalize(v) = v / length(v)` produces `c • v` for the
positive real `c = 1 / sqrt(dot(v, v))`, so unit length of the produced
normal is stated as the existence of such a rescaling. -/

/-- `delta = mix(vec3(0, 1, 0), delta, step(1e-7, dot(delta, delta)));` (line 299). -/
def deltaFallback (delta : Vec3) : Vec3 :=
  mix3 ⟨0, 1, 0⟩ delta (stepF (1 / 10000000) (Vec3.dot delta delta))

theorem dot_self_cast_pos {v : Vec3} (hv : 0 < Vec3.dot v v) :
    (0 : ℝ) < (v.x : ℝ) ^ 2 + (v.y : ℝ) ^ 2 + (v.z : ℝ) ^ 2 := by
  have h1 : (0 : ℝ) < ((Vec3.dot v v : ℚ) : ℝ) := by exact_mod_cast hv
  have h2 : ((Vec3.dot v v : ℚ) : ℝ) = (v.x : ℝ) ^ 2 + (v.y : ℝ) ^ 2 + (v.z : ℝ) ^ 2 := by
    unfold Vec3.dot
    push_cast
    ring
  rwa [h2] at h1

theorem unit_rescaling {v : Vec3} (hv : 0 < Vec3.dot v v) :
    ∃ c : ℝ, 0 < c ∧
      (c * (v.x : ℝ)) ^ 2 + (c * (v.y : ℝ)) ^ 2 + (c * (v.z : ℝ)) ^ 2 = 1 := by
  have hs0 : (0 : ℝ) < (v.x : ℝ) ^ 2 + (v.y : ℝ) ^ 2 + (v.z : ℝ) ^ 2 := dot_self_cast_pos hv
  set s : ℝ := (v.x : ℝ) ^ 2 + (v.y : ℝ) ^ 2 + (v.z : ℝ) ^ 2 with hs
  have hsqrt : 0 < Real.sqrt s := Real.sqrt_pos.mpr hs0
  refine ⟨1 / Real.sqrt s, by positivity, ?_⟩
  have h3 : (1 / Real.sqrt s * (v.x : ℝ)) ^ 2 + (1 / Real.sqrt s * (v.y : ℝ)) ^ 2 +
      (1 / Real.sqrt s * (v.z : ℝ)) ^ 2 = (1 / Real.sqrt s) ^ 2 * s := by
    rw [hs]
    ring
  rw [h3, div_pow, one_pow, Real.sq_sqrt hs0.le, one_div, inv_mul_cancel₀ hs0.ne']

/-- C10: whenever a normal is estimated, if the forward-difference gradient
`delta` has `dot(delta, delta) < 1e-7` it is replaced by the fixed fallback
`(0, 1, 0)` before normalization; the vector reaching `normalize` always has
squared length at least `1e-7` (never zero or near zero), and both it and
its negation (the `INVERT_NORMALS` path) rescale to an exactly unit-length
normal. -/
theorem C10_deltaFallback_unit_normal (delta : Vec3) :
    (Vec3.dot delta delta < 1 / 10000000 → deltaFallback delta = ⟨0, 1, 0⟩) ∧
    1 / 10000000 ≤ Vec3.dot (deltaFallback delta) (deltaFallback delta) ∧
    (∃ c : ℝ, 0 < c ∧
      (c * ((deltaFallback delta).x : ℝ)) ^ 2 + (c * ((deltaFallback delta).y : ℝ)) ^ 2 +
        (c * ((deltaFallback delta).z : ℝ)) ^ 2 = 1 ∧
      (c * -((deltaFallback delta).x : ℝ)) ^ 2 + (c * -((deltaFallback delta).y : ℝ)) ^ 2 +
        (c * -((deltaFallback delta).z : ℝ)) ^ 2 = 1) := by
  have hfb : 1 / 10000000 ≤ Vec3.dot (deltaFallback delta) (deltaFallback delta) := by
    by_cases h : Vec3.dot delta delta < 1 / 10000000
    · rw [deltaFallback, stepF_of_lt h]
      norm_num [mix3, mixQ, Vec3.dot]
    · push_neg at h
      rw [deltaFallback, stepF_of_ge h]
      calc (1 : ℚ) / 10000000 ≤ Vec3.dot delta delta := h
        _ = Vec3.dot (mix3 ⟨0, 1, 0⟩ delta 1) (mix3 ⟨0, 1, 0⟩ delta 1) := by
            norm_num [mix3, mixQ]
  have hpos : 0 < Vec3.dot (deltaFallback delta) (deltaFallback delta) :=
    lt_of_lt_of_le (by norm_num) hfb
  obtain ⟨c, hc, h1⟩ := unit_rescaling hpos
  refine ⟨?_, hfb, c, hc, h1, ?_⟩
  · intro h
    rw [deltaFallback, stepF_of_lt h]
    norm_num [mix3, mixQ]
  · have h2 : (c * -((deltaFallback delta).x : ℝ)) ^ 2 +
        (c * -((deltaFallback delta).y : ℝ)) ^ 2 +
        (c * -((deltaFallback delta).z : ℝ)) ^ 2 =
        (c * ((deltaFallback delta).x : ℝ)) ^ 2 + (c * ((deltaFallback delta).y : ℝ)) ^ 2 +
        (c * ((deltaFallback delta).z : ℝ)) ^ 2 := by ring
    rw [h2]
    exact h1

/-- Witness for C10 at the zero gradient: `dot = 0 < 1e-7`, and the fallback
vector `(0, 1, 0)` is substituted. -/
theorem C10_deltaFallback_unit_normal_witness :
    Vec3.dot ⟨0, 0, 0⟩ ⟨0, 0, 0⟩ < 1 / 10000000 ∧ deltaFallback ⟨0, 0, 0⟩ = ⟨0, 1, 0⟩ :=
  ⟨by norm_num [Vec3.dot], (C10_deltaFallback_unit_normal ⟨0, 0, 0⟩).1 (by norm_num [Vec3.dot])⟩

/-! ### Lighting accumulation (`fragmentShader main`, lines 313-346)

The per-light geometry that involves `normalize`/`distance` (square roots)
is abstracted: `dotLN` stands for `dot(lightDirection, viewNormal)` and
`dist` for `distance(viewPosition, pointLights[l].position)`.  The
attenuation formula with its `max(dist*dist, 0.01)` epsilon floor is
embedded literally. -/

/-- GLSL `struct PointLight`. -/
structure PointLight where
  color : Vec3
  position : Vec3
  distance : ℚ

/-- GLSL `struct DirectionalLight`. -/
structure DirectionalLight where
  direction : Vec3
  color : Vec3

/-- One iteration of the point-light loop (lines 325-339). -/
def pointLightContrib (L : PointLight) (dotLN dist : ℚ) : Vec3 :=
  let attenuation :=
    if L.distance > 0 then max 0 (1 - dist / L.distance) / max (dist * dist) (1 / 100)
    else 1
  Vec3.smul (clampQ dotLN 0 1 * attenuation) L.color

/-- One iteration of the directional-light loop (lines 342-345). -/
def dirLightContrib (L : DirectionalLight) (dotLN : ℚ) : Vec3 :=
  Vec3.smul (clampQ dotLN 0 1) L.color

/-- The point-light loop summing contributions for lights `i, i+1, ...`. -/
def sumPointLights (pdot pdist : ℕ → ℚ) : ℕ → List PointLight → Vec3
  | _, [] => ⟨0, 0, 0⟩
  | i, L :: rest => Vec3.add (pointLightContrib L (pdot i) (pdist i)) (sumPointLights pdot pdist (i + 1) rest)

/-- The directional-light loop summing contributions for lights `i, i+1, ...`. -/
def sumDirLights (ddot : ℕ → ℚ) : ℕ → List DirectionalLight → Vec3
  | _, [] => ⟨0, 0, 0⟩
  | i, L :: rest => Vec3.add (dirLightContrib L (ddot i)) (sumDirLights ddot (i + 1) rest)

/-- `vec3 addedLights = vec3(0.0);` followed by both light loops, with the
per-light view-space geometry supplied by the oracles. -/
def addedLights (pls : List PointLight) (dls : List DirectionalLight)
    (pdot pdist ddot : ℕ → ℚ) : Vec3 :=
  Vec3.add (sumPointLights pdot pdist 0 pls) (sumDirLights ddot 0 dls)

theorem vecAdd_nonneg {a b : Vec3} (ha : a.Nonneg) (hb : b.Nonneg) : (Vec3.add a b).Nonneg :=
  ⟨add_nonneg ha.1 hb.1, add_nonneg ha.2.1 hb.2.1, add_nonneg ha.2.2 hb.2.2⟩

theorem vecSmul_nonneg {c : ℚ} {a : Vec3} (hc : 0 ≤ c) (ha : a.Nonneg) :
    (Vec3.smul c a).Nonneg :=
  ⟨mul_nonneg hc ha.1, mul_nonneg hc ha.2.1, mul_nonneg hc ha.2.2⟩

theorem vecHmul_nonneg {a b : Vec3} (ha : a.Nonneg) (hb : b.Nonneg) :
    (Vec3.hmul a b).Nonneg :=
  ⟨mul_nonneg ha.1 hb.1, mul_nonneg ha.2.1 hb.2.1, mul_nonneg ha.2.2 hb.2.2⟩

theorem pointLightContrib_nonneg (L : PointLight) (dotLN dist : ℚ)
    (hc : L.color.Nonneg) : (pointLightContrib L dotLN dist).Nonneg := by
  unfold pointLightContrib
  refine vecSmul_nonneg (mul_nonneg (clampQ_nonneg _ _ one_pos.le) ?_) hc
  split
  · exact div_nonneg (le_max_left 0 _) (le_trans (by norm_num) (le_max_right (dist * dist) _))
  · norm_num

theorem dirLightContrib_nonneg (L : DirectionalLight) (dotLN : ℚ)
    (hc : L.color.Nonneg) : (dirLightContrib L dotLN).Nonneg :=
  vecSmul_nonneg (clampQ_nonneg _ _ one_pos.le) hc

theorem sumPointLights_nonneg (pdot pdist : ℕ → ℚ) :
    ∀ (pls : List PointLight) (i : ℕ), (∀ L ∈ pls, L.color.Nonneg) →
      (sumPointLights pdot pdist i pls).Nonneg := by
  intro pls
  induction pls with
  | nil => intro i _; exact ⟨le_refl 0, le_refl 0, le_refl 0⟩
  | cons L rest ih =>
    intro i h
    exact vecAdd_nonneg
      (pointLightContrib_nonneg L _ _ (h L (List.mem_cons_self L rest)))
      (ih (i + 1) fun M hM => h M (List.mem_cons_of_mem L hM))

theorem sumDirLights_nonneg (ddot : ℕ → ℚ) :
    ∀ (dls : List DirectionalLight) (i : ℕ), (∀ L ∈ dls, L.color.Nonneg) →
      (sumDirLights ddot i dls).Nonneg := by
  intro dls
  induction dls with
  | nil => intro i _; exact ⟨le_refl 0, le_refl 0, le_refl 0⟩
  | cons L rest ih =>
    intro i h
    exact vecAdd_nonneg
      (dirLightContrib_nonneg L _ (h L (List.mem_cons_self L rest)))
      (ih (i + 1) fun M hM => h M (List.mem_cons_of_mem L hM))

theorem addedLights_nonneg (pls : List PointLight) (dls : List DirectionalLight)
    (pdot pdist ddot : ℕ → ℚ)
    (hp : ∀ L ∈ pls, L.color.Nonneg) (hd : ∀ L ∈ dls, L.color.Nonneg) :
    (addedLights pls dls pdot pdist ddot).Nonneg :=
  vecAdd_nonneg (sumPointLights_nonneg pdot pdist pls 0 hp)
    (sumDirLights_nonneg ddot dls 0 hd)

/-! ### The ray-march loop (`fragmentShader main`, lines 229-399)

All feature flags and uniforms relevant to the loop are collected in one
context.  `intersectionLength` stands for `length(exitPoint - entryPoint)`
(the one square root of the setup), `rand` for the per-pixel hash value of
line 245, `sample` for `sampleValue` at the frame's fixed time and volume
offsets, `palette` for the palette texture row, `lights` for the
view-space `addedLights` sum at a position, and `rexp` for GLSL `exp`. -/

/-- Context of one fragment's ray march: feature flags, uniforms, the
clipped-segment geometry and the sampling/lighting oracles. -/
structure FragCtx where
  renderNormals : Bool
  renderMeanValue : Bool
  useVolumetricDepthTest : Bool
  useExtinctionCoefficient : Bool
  useValueAsExtinctionCoefficient : Bool
  useLights : Bool
  useRandomStart : Bool
  invertNormals : Bool
  raySteps : ℕ
  valueMultiplier : ℚ
  valueAdded : ℚ
  minCutoffValue : ℚ
  maxCutoffValue : ℚ
  minPaletteValue : ℚ
  maxPaletteValue : ℚ
  alphaMultiplier : ℚ
  cutoffFadeRange : ℚ
  extinctionCoefficient : ℚ
  extinctionMultiplier : ℚ
  normalEpsilon : ℚ
  entryPoint : Vec3
  exitPoint : Vec3
  intersectionLength : ℚ
  tNear : ℚ
  depth : ℚ
  rand : ℚ
  sample : Vec3 → ℚ
  palette : ℚ → Vec3
  lights : Vec3 → Vec3
  rexp : ℚ → ℚ

namespace FragCtx

/-- `float stepLength = intersectionLength / float(RAY_STEPS);` (line 227). -/
def stepLength (C : FragCtx) : ℚ := C.intersectionLength / (C.raySteps : ℚ)

/-- The initial `currentRayLength` (lines 243-251): with `USE_RANDOM_START`
it is `stepLength * (rand - 1.0) + 1e-6`, otherwise `-stepLength + 1e-6`. -/
def startLength (C : FragCtx) : ℚ :=
  if C.useRandomStart then C.stepLength * (C.rand - 1) + 1 / 1000000
  else -C.stepLength + 1 / 1000000

/-- `vec3 position = mix(entryPoint, exitPoint, currentRayLength / intersectionLength);` (line 262). -/
def positionAt (C : FragCtx) (cur : ℚ) : Vec3 :=
  mix3 C.entryPoint C.exitPoint (cur / C.intersectionLength)

/-- `float scaledValue = sampledValue * valueMultiplier + valueAdded;` (line 271). -/
def scaledValueAt (C : FragCtx) (cur : ℚ) : ℚ :=
  C.sample (C.positionAt cur) * C.valueMultiplier + C.valueAdded

/-- The fully masked `stepWeight` of the iteration at traveled distance
`cur` (lines 259, 274, 278): the bounding-volume mask, the cutoff-range
mask, and (when enabled) the depth-buffer mask. -/
def stepWeightAt (C : FragCtx) (cur : ℚ) : ℚ :=
  let w0 := 1 - stepF (C.intersectionLength - 1 / 1000000) cur
  let sv := C.scaledValueAt cur
  let w1 := w0 * (stepF C.minCutoffValue sv * stepF sv C.maxCutoffValue)
  if C.useVolumetricDepthTest then w1 * stepF (cur + C.tNear) C.depth else w1

/-- The per-step blending alpha (lines 354-368): the extinction variants,
multiplied by `stepWeight * alphaMultiplier` and the `smoothstep` edge
fade, then clamped to `[0, 1]`. -/
def stepAlphaAt (C : FragCtx) (cur : ℚ) : ℚ :=
  let sv := C.scaledValueAt cur
  let alpha0 :=
    if !C.useExtinctionCoefficient then 1
    else if C.useValueAsExtinctionCoefficient then
      1 - C.rexp (-(sv * C.extinctionMultiplier * C.stepLength))
    else 1 - C.rexp (-(C.extinctionCoefficient * C.extinctionMultiplier * C.stepLength))
  let alpha1 := alpha0 * (C.stepWeightAt cur * C.alphaMultiplier)
  let alpha2 := alpha1 *
    smoothstepQ 0 (C.cutoffFadeRange + 1 / 1000000)
      (min (sv - C.minCutoffValue) (C.maxCutoffValue - sv))
  clampQ alpha2 0 1

/-- The step's color (lines 352, 371-376): the palette sample at the
normalized value, multiplied componentwise by `addedLights` when lighting
is enabled. -/
def colorAt (C : FragCtx) (cur : ℚ) : Vec3 :=
  let rgb := C.palette (clampQ
    ((C.scaledValueAt cur - C.minPaletteValue) / (C.maxPaletteValue - C.minPaletteValue)) 0 1)
  if C.useLights then Vec3.hmul rgb (C.lights (C.positionAt cur)) else rgb

/-- The forward-difference gradient (lines 294-298). -/
def deltaAt (C : FragCtx) (cur : ℚ) : Vec3 :=
  let position := C.positionAt cur
  let sampledValue := C.sample position
  ⟨C.sample (Vec3.add position ⟨C.normalEpsilon, 0, 0⟩) - sampledValue,
   C.sample (Vec3.add position ⟨0, C.normalEpsilon, 0⟩) - sampledValue,
   C.sample (Vec3.add position ⟨0, 0, C.normalEpsilon⟩) - sampledValue⟩

end FragCtx

/-- Mutable state of the march loop.  `blendR/G/B/A` are
`alphaBlendedColor`, `valueSum`/`weightSum` the mean-value accumulators,
`fragNormalDelta`/`fragNormalAlpha` the normal-output `gl_FragColor`
(recorded as the vector passed to `normalize` and the alpha channel);
`divByZero` instruments the `currentRayLength / intersectionLength`
division of line 262, and `weights` records each executed iteration's
final `stepWeight`. -/
structure FragState where
  currentRayLength : ℚ
  blendR : ℚ
  blendG : ℚ
  blendB : ℚ
  blendA : ℚ
  valueSum : ℚ
  weightSum : ℚ
  fragNormalDelta : Vec3
  fragNormalAlpha : ℚ
  divByZero : Bool
  weights : List ℚ

/-- The loop state before the first iteration. -/
def initFragState (C : FragCtx) : FragState :=
  ⟨C.startLength, 0, 0, 0, 0, 0, 0, ⟨0, 0, 0⟩, 0, false, []⟩

/-- One iteration of the march loop (lines 254-383).  Returns the new state
and whether the loop `break`s (only the `RENDER_NORMALS` surface hit). -/
def stepUpdate (C : FragCtx) (s : FragState) : FragState × Bool :=
  let cur := s.currentRayLength + C.stepLength
  let stepWeight := C.stepWeightAt cur
  let base : FragState :=
    { s with
      currentRayLength := cur
      divByZero := s.divByZero || decide (C.intersectionLength = 0)
      weights := s.weights ++ [stepWeight] }
  if C.renderNormals then
    if stepWeight > 0 then
      ({ base with
          fragNormalDelta :=
            if C.invertNormals then Vec3.neg (deltaFallback (C.deltaAt cur))
            else deltaFallback (C.deltaAt cur)
          fragNormalAlpha := 1 }, true)
    else (base, false)
  else if C.renderMeanValue then
    ({ base with
        valueSum := s.valueSum + C.scaledValueAt cur * C.stepLength * stepWeight
        weightSum := s.weightSum + C.stepLength * stepWeight }, false)
  else
    let alpha := C.stepAlphaAt cur
    let color := C.colorAt cur
    ({ base with
        blendR := s.blendR + color.x * alpha * (1 - s.blendA)
        blendG := s.blendG + color.y * alpha * (1 - s.blendA)
        blendB := s.blendB + color.z * alpha * (1 - s.blendA)
        blendA := s.blendA + (1 - s.blendA) * alpha }, false)

/-- `for (int i = 0; i < RAY_STEPS; i++) { ... }` with the normal-output
`break`: returns the final state and the number of iterations executed. -/
def marchLoop (C : FragCtx) : ℕ → FragState → FragState × ℕ
  | 0, s => (s, 0)
  | n + 1, s =>
    match stepUpdate C s with
    | (s1, true) => (s1, 1)
    | (s1, false) =>
      let r := marchLoop C n s1
      (r.1, r.2 + 1)

/-- The whole march of a fragment: `RAY_STEPS` iterations from the initial state. -/
def marchResult (C : FragCtx) : FragState × ℕ :=
  marchLoop C C.raySteps (initFragState C)

/-- `gl_FragColor = alphaBlendedColor;` (line 397): the blend-mode output. -/
def blendOutput (C : FragCtx) : Vec3 × ℚ :=
  let s := (marchResult C).1
  (⟨s.blendR, s.blendG, s.blendB⟩, s.blendA)

/-- The mean-value output (lines 386-394). -/
def meanOutput (C : FragCtx) : Vec3 × ℚ :=
  let s := (marchResult C).1
  let meanValue := s.valueSum / max s.weightSum (1 / 1000000)
  let normalizedMean := clampQ
    ((meanValue - C.minPaletteValue) / (C.maxPaletteValue - C.minPaletteValue))
    (1 / 10000000) (1 - 1 / 10000000)
  let alpha := clampQ
    (stepF C.minCutoffValue meanValue * stepF meanValue C.maxCutoffValue * C.alphaMultiplier) 0 1
  (Vec3.smul alpha (C.palette normalizedMean), alpha)

/-- `float depth = -((near * far) / ((far - near) * z - far));` (line 165). -/
def reconstructDepth (near far z : ℚ) : ℚ :=
  -((near * far) / ((far - near) * z - far))

/-- The index (within `fuel` more iterations, starting after traveled
distance `cur0`) of the first step whose `stepWeight` is positive. -/
def firstHitAux (C : FragCtx) : ℚ → ℕ → Option ℕ
  | _, 0 => none
  | cur0, n + 1 =>
    if C.stepWeightAt (cur0 + C.stepLength) > 0 then some 0
    else (firstHitAux C (cur0 + C.stepLength) n).map (· + 1)

/-! ### Loop lemmas -/

theorem stepUpdate_no_break (C : FragCtx) (s : FragState)
    (h : C.renderNormals = false) : (stepUpdate C s).2 = false := by
  unfold stepUpdate
  split_ifs <;> simp_all

theorem stepUpdate_currentRayLength (C : FragCtx) (s : FragState) :
    (stepUpdate C s).1.currentRayLength = s.currentRayLength + C.stepLength := by
  simp only [stepUpdate]
  split_ifs <;> rfl

theorem stepUpdate_divByZero (C : FragCtx) (s : FragState) :
    (stepUpdate C s).1.divByZero = (s.divByZero || decide (C.intersectionLength = 0)) := by
  simp only [stepUpdate]
  split_ifs <;> rfl

theorem stepUpdate_weights (C : FragCtx) (s : FragState) :
    (stepUpdate C s).1.weights =
      s.weights ++ [C.stepWeightAt (s.currentRayLength + C.stepLength)] := by
  simp only [stepUpdate]
  split_ifs <;> rfl

theorem marchLoop_inv (C : FragCtx) (P : FragState → Prop)
    (hstep : ∀ s, P s → P (stepUpdate C s).1) :
    ∀ n s, P s → P (marchLoop C n s).1 := by
  intro n
  induction n with
  | zero => intro s hs; exact hs
  | succ m ih =>
    intro s hs
    have h1 : P (stepUpdate C s).1 := hstep s hs
    rcases hst : stepUpdate C s with ⟨s1, brk⟩
    rw [hst] at h1
    cases brk
    · simpa only [marchLoop, hst] using ih s1 h1
    · simpa only [marchLoop, hst] using h1

theorem marchLoop_iterations (C : FragCtx) (h : C.renderNormals = false) :
    ∀ n s, (marchLoop C n s).2 = n := by
  intro n
  induction n with
  | zero => intro s; rfl
  | succ m ih =>
    intro s
    rcases hst : stepUpdate C s with ⟨s1, brk⟩
    have hb : brk = false := by
      have := stepUpdate_no_break C s h
      rwa [hst] at this
    subst hb
    simp only [marchLoop, hst, ih s1]

theorem marchLoop_succ_state (C : FragCtx) (h : C.renderNormals = false) :
    ∀ n s, (marchLoop C (n + 1) s).1 = (stepUpdate C (marchLoop C n s).1).1 := by
  intro n
  induction n with
  | zero =>
    intro s
    rcases hst : stepUpdate C s with ⟨s1, brk⟩
    have hb : brk = false := by
      have := stepUpdate_no_break C s h
      rwa [hst] at this
    subst hb
    simp only [marchLoop, hst]
  | succ m ih =>
    intro s
    rcases hst : stepUpdate C s with ⟨s1, brk⟩
    have hb : brk = false := by
      have := stepUpdate_no_break C s h
      rwa [hst] at this
    subst hb
    simp only [marchLoop, hst]
    exact ih s1

theorem stepWeightAt_of_beyond (C : FragCtx) {cur : ℚ}
    (h : C.intersectionLength < cur) : C.stepWeightAt cur = 0 := by
  have h0 : (0 : ℚ) < 1 / 1000000 := by norm_num
  have h1 : C.intersectionLength - 1 / 1000000 ≤ cur := by linarith
  simp only [FragCtx.stepWeightAt]
  rw [stepF_of_ge h1]
  simp

theorem stepWeightAt_of_depth (C : FragCtx) {cur : ℚ}
    (hdt : C.useVolumetricDepthTest = true) (h : C.depth < cur + C.tNear) :
    C.stepWeightAt cur = 0 := by
  simp [FragCtx.stepWeightAt, hdt, stepF_of_lt h]

theorem stepAlphaAt_of_weight_zero (C : FragCtx) {cur : ℚ}
    (h : C.stepWeightAt cur = 0) : C.stepAlphaAt cur = 0 := by
  simp [FragCtx.stepAlphaAt, h, clampQ]

theorem stepAlphaAt_mem_unit (C : FragCtx) (cur : ℚ) :
    0 ≤ C.stepAlphaAt cur ∧ C.stepAlphaAt cur ≤ 1 :=
  ⟨clampQ_nonneg _ _ one_pos.le, clampQ_le _ _ _⟩

theorem stepUpdate_masked (C : FragCtx) (s : FragState)
    (h : C.stepWeightAt (s.currentRayLength + C.stepLength) = 0) :
    (stepUpdate C s).1 =
      { s with
        currentRayLength := s.currentRayLength + C.stepLength
        divByZero := s.divByZero || decide (C.intersectionLength = 0)
        weights := s.weights ++ [0] } := by
  have ha := stepAlphaAt_of_weight_zero C h
  simp only [stepUpdate, h, ha, gt_iff_lt, lt_self_iff_false, if_false]
  split_ifs <;> simp

theorem stepLength_nonneg (C : FragCtx) (hlen : 0 ≤ C.intersectionLength) :
    0 ≤ C.stepLength :=
  div_nonneg hlen (Nat.cast_nonneg _)

theorem startLength_add_step (C : FragCtx) (hsl : 0 ≤ C.stepLength)
    (hrand : 0 ≤ C.rand) :
    1 / 1000000 ≤ C.startLength + C.stepLength := by
  unfold FragCtx.startLength
  split_ifs
  · nlinarith
  · linarith

/-- If every reachable iteration's `stepWeight` vanishes, the whole march
leaves all accumulators at zero and records only zero weights. -/
theorem marchLoop_all_masked (C : FragCtx)
    (hsl : 0 ≤ C.stepLength)
    (hstart : 1 / 1000000 ≤ C.startLength + C.stepLength)
    (hstep : ∀ cur : ℚ, 1 / 1000000 ≤ cur → C.stepWeightAt cur = 0) :
    (∀ w ∈ (marchResult C).1.weights, w = 0) ∧
    (marchResult C).1.blendR = 0 ∧ (marchResult C).1.blendG = 0 ∧
    (marchResult C).1.blendB = 0 ∧ (marchResult C).1.blendA = 0 ∧
    (marchResult C).1.valueSum = 0 ∧ (marchResult C).1.weightSum = 0 ∧
    (marchResult C).1.fragNormalAlpha = 0 := by
  have key : ∀ s : FragState,
      (1 / 1000000 ≤ s.currentRayLength + C.stepLength ∧
        (∀ w ∈ s.weights, w = 0) ∧ s.blendR = 0 ∧ s.blendG = 0 ∧ s.blendB = 0 ∧
        s.blendA = 0 ∧ s.valueSum = 0 ∧ s.weightSum = 0 ∧ s.fragNormalAlpha = 0) →
      (1 / 1000000 ≤ (stepUpdate C s).1.currentRayLength + C.stepLength ∧
        (∀ w ∈ (stepUpdate C s).1.weights, w = 0) ∧ (stepUpdate C s).1.blendR = 0 ∧
        (stepUpdate C s).1.blendG = 0 ∧ (stepUpdate C s).1.blendB = 0 ∧
        (stepUpdate C s).1.blendA = 0 ∧ (stepUpdate C s).1.valueSum = 0 ∧
        (stepUpdate C s).1.weightSum = 0 ∧ (stepUpdate C s).1.fragNormalAlpha = 0) := by
    intro s hs
    obtain ⟨hcur, hw, hr, hg, hb, ha, hv, hws, hna⟩ := hs
    have hw0 : C.stepWeightAt (s.currentRayLength + C.stepLength) = 0 := hstep _ hcur
    rw [stepUpdate_masked C s hw0]
    refine ⟨?_, ?_, hr, hg, hb, ha, hv, hws, hna⟩
    · simp only
      linarith
    · intro w hwmem
      simp only [List.mem_append, List.mem_singleton] at hwmem
      rcases hwmem with h | h
      · exact hw w h
      · exact h
  have hinit : 1 / 1000000 ≤ (initFragState C).currentRayLength + C.stepLength ∧
      (∀ w ∈ (initFragState C).weights, w = 0) ∧ (initFragState C).blendR = 0 ∧
      (initFragState C).blendG = 0 ∧ (initFragState C).blendB = 0 ∧
      (initFragState C).blendA = 0 ∧ (initFragState C).valueSum = 0 ∧
      (initFragState C).weightSum = 0 ∧ (initFragState C).fragNormalAlpha = 0 := by
    refine ⟨hstart, ?_, rfl, rfl, rfl, rfl, rfl, rfl, rfl⟩
    intro w hwmem
    simp [initFragState] at hwmem
  have := marchLoop_inv C _ key C.raySteps (initFragState C) hinit
  exact ⟨this.2.1, this.2.2.1, this.2.2.2.1, this.2.2.2.2.1, this.2.2.2.2.2.1,
    this.2.2.2.2.2.2.1, this.2.2.2.2.2.2.2.1, this.2.2.2.2.2.2.2.2⟩

theorem stepUpdate_break (C : FragCtx) (s : FragState) :
    (stepUpdate C s).2 =
      (C.renderNormals && decide (C.stepWeightAt (s.currentRayLength + C.stepLength) > 0)) := by
  simp only [stepUpdate]
  split_ifs <;> simp_all

theorem marchLoop_normals_iterations (C : FragCtx) (h : C.renderNormals = true) :
    ∀ n s, (marchLoop C n s).2 =
      match firstHitAux C s.currentRayLength n with
      | some i => i + 1
      | none => n := by
  intro n
  induction n with
  | zero => intro s; rfl
  | succ m ih =>
    intro s
    rcases hst : stepUpdate C s with ⟨s1, brk⟩
    have hbrk : brk = (C.renderNormals &&
        decide (C.stepWeightAt (s.currentRayLength + C.stepLength) > 0)) := by
      have := stepUpdate_break C s
      rwa [hst] at this
    have hcur : s1.currentRayLength = s.currentRayLength + C.stepLength := by
      have := stepUpdate_currentRayLength C s
      rwa [hst] at this
    by_cases hw : C.stepWeightAt (s.currentRayLength + C.stepLength) > 0
    · have hb : brk = true := by simp [hbrk, h, hw]
      subst hb
      simp only [marchLoop, hst, firstHitAux, if_pos hw]
    · have hb : brk = false := by simp [hbrk, h, hw]
      subst hb
      simp only [marchLoop, hst, firstHitAux, if_neg hw]
      rw [ih s1, hcur]
      rcases hfh : firstHitAux C (s.currentRayLength + C.stepLength) m with _ | i <;>
        simp [hfh]

/-- C5: in alpha-blend and mean-value modes the march loop executes exactly
`RAY_STEPS` iterations, and every step whose traveled distance exceeds the
box exit distance has step weight zero and changes nothing but the traveled
distance (it is masked, not skipped); only in normal-output mode does the
loop stop early, exactly at the first sample whose step weight is positive. -/
theorem C5_loop_shape (C : FragCtx) :
    (C.renderNormals = false → (marchResult C).2 = C.raySteps) ∧
    (∀ s : FragState, C.intersectionLength < s.currentRayLength + C.stepLength →
      C.stepWeightAt (s.currentRayLength + C.stepLength) = 0 ∧
      (stepUpdate C s).1 =
        { s with
          currentRayLength := s.currentRayLength + C.stepLength
          divByZero := s.divByZero || decide (C.intersectionLength = 0)
          weights := s.weights ++ [0] }) ∧
    (C.renderNormals = true → ∀ n s, (marchLoop C n s).2 =
      match firstHitAux C s.currentRayLength n with
      | some i => i + 1
      | none => n) := by
  refine ⟨fun h => marchLoop_iterations C h _ _, fun s hs => ?_,
    marchLoop_normals_iterations C⟩
  have hw := stepWeightAt_of_beyond C hs
  exact ⟨hw, stepUpdate_masked C s hw⟩

/-- A concrete default-flag blend-mode context: unit sampler oracle, white
palette, segment of length 4 marched in 4 steps, depth buffer reading the
reconstructed distance 1 while the box entry is at distance 2. -/
def blendCtx : FragCtx where
  renderNormals := false
  renderMeanValue := false
  useVolumetricDepthTest := false
  useExtinctionCoefficient := true
  useValueAsExtinctionCoefficient := false
  useLights := false
  useRandomStart := false
  invertNormals := false
  raySteps := 4
  valueMultiplier := 1
  valueAdded := 0
  minCutoffValue := 0
  maxCutoffValue := 1
  minPaletteValue := 0
  maxPaletteValue := 1
  alphaMultiplier := 1
  cutoffFadeRange := 0
  extinctionCoefficient := 1
  extinctionMultiplier := 1
  normalEpsilon := 1 / 100
  entryPoint := ⟨0, 0, 0⟩
  exitPoint := ⟨4, 0, 0⟩
  intersectionLength := 4
  tNear := 2
  depth := reconstructDepth 1 2 0
  rand := 0
  sample := fun _ => 0
  palette := fun _ => ⟨1, 1, 1⟩
  lights := fun _ => ⟨0, 0, 0⟩
  rexp := fun _ => 1

/-- `blendCtx` with the volumetric depth test enabled. -/
def depthCtx : FragCtx := { blendCtx with useVolumetricDepthTest := true }

/-- `depthCtx` in mean-value mode with a cutoff range containing 0. -/
def meanDepthCtx : FragCtx :=
  { depthCtx with renderMeanValue := true, minCutoffValue := -1 }

/-- `blendCtx` with a degenerate ray segment (`tNear == tFar`): entry and
exit coincide and `intersectionLength = 0`. -/
def degenerateCtx : FragCtx :=
  { blendCtx with exitPoint := ⟨0, 0, 0⟩, intersectionLength := 0 }

/-- Witness for C5 at `blendCtx` (blend mode, 4 steps): the loop executes
exactly 4 iterations. -/
theorem C5_loop_shape_witness :
    blendCtx.renderNormals = false ∧ (marchResult blendCtx).2 = blendCtx.raySteps :=
  ⟨rfl, (C5_loop_shape blendCtx).1 rfl⟩

/-- C6 (amended): with the volumetric depth test enabled, whenever the
depth reconstructed as `-(near*far)/((far-near)*z - far)` is nearer than
the ray's box entry distance `tNear`, every executed step's weight is zero
for every field; the alpha-blend output and the normal-output alpha are
fully transparent.  (In mean-value mode the pixel need not be transparent
— see the counterexample — which the original claim overlooked.) -/
theorem C6_depth_mask_transparent (C : FragCtx) (near far z : ℚ)
    (hdt : C.useVolumetricDepthTest = true)
    (hdepth : C.depth = reconstructDepth near far z)
    (hnearer : C.depth < C.tNear)
    (hlen : 0 ≤ C.intersectionLength)
    (hrand : 0 ≤ C.rand) :
    (∀ w ∈ (marchResult C).1.weights, w = 0) ∧
    blendOutput C = (⟨0, 0, 0⟩, 0) ∧
    (marchResult C).1.fragNormalAlpha = 0 := by
  have hsl := stepLength_nonneg C hlen
  have hstart := startLength_add_step C hsl hrand
  have hstep : ∀ cur : ℚ, 1 / 1000000 ≤ cur → C.stepWeightAt cur = 0 := by
    intro cur hcur
    have hc0 : 0 < cur := lt_of_lt_of_le (by norm_num) hcur
    exact stepWeightAt_of_depth C hdt (by linarith)
  obtain ⟨hw, hr, hg, hb, ha, _, _, hna⟩ := marchLoop_all_masked C hsl hstart hstep
  refine ⟨hw, ?_, hna⟩
  show ((⟨(marchResult C).1.blendR, (marchResult C).1.blendG, (marchResult C).1.blendB⟩ : Vec3),
    (marchResult C).1.blendA) = ((⟨0, 0, 0⟩ : Vec3), (0 : ℚ))
  rw [hr, hg, hb, ha]

/-- Witness for C6 at `depthCtx`: depth `1` (reconstructed from
`near = 1`, `far = 2`, `z = 0`) is nearer than the box entry `tNear = 2`,
and the blend output is fully transparent. -/
theorem C6_depth_mask_transparent_witness :
    depthCtx.useVolumetricDepthTest = true ∧ depthCtx.depth < depthCtx.tNear ∧
    blendOutput depthCtx = (⟨0, 0, 0⟩, 0) :=
  ⟨rfl, by norm_num [depthCtx, blendCtx, reconstructDepth],
   (C6_depth_mask_transparent depthCtx 1 2 0 rfl rfl
      (by norm_num [depthCtx, blendCtx, reconstructDepth])
      (by norm_num [depthCtx, blendCtx]) (le_refl 0)).2.1⟩

/-- Counterexample to C6: in mean-value mode with a cutoff range containing
0, a depth-buffer value nearer than the box entry still masks every step,
but the zero-weight mean defaults to `0`, which passes the cutoff test and
produces output alpha `alphaMultiplier = 1` — the pixel is not transparent,
refuting the claim's unconditional transparency. -/
theorem C6_mean_mode_counterexample :
    meanDepthCtx.useVolumetricDepthTest = true ∧
    meanDepthCtx.depth = reconstructDepth 1 2 0 ∧
    meanDepthCtx.depth < meanDepthCtx.tNear ∧
    (meanOutput meanDepthCtx).2 = 1 := by
  have hd : meanDepthCtx.depth < meanDepthCtx.tNear := by
    norm_num [meanDepthCtx, depthCtx, blendCtx, reconstructDepth]
  refine ⟨rfl, rfl, hd, ?_⟩
  have hsl : 0 ≤ meanDepthCtx.stepLength :=
    stepLength_nonneg _ (by norm_num [meanDepthCtx, depthCtx, blendCtx])
  have hstart := startLength_add_step meanDepthCtx hsl (le_refl 0)
  have hstep : ∀ cur : ℚ, 1 / 1000000 ≤ cur → meanDepthCtx.stepWeightAt cur = 0 := by
    intro cur hcur
    have hc0 : (0 : ℚ) < cur := lt_of_lt_of_le (by norm_num) hcur
    refine stepWeightAt_of_depth _ rfl ?_
    have ht : meanDepthCtx.tNear = 2 := rfl
    calc meanDepthCtx.depth < meanDepthCtx.tNear := hd
      _ < cur + meanDepthCtx.tNear := by linarith [ht ▸ lt_add_of_pos_left (2 : ℚ) hc0]
  obtain ⟨_, _, _, _, _, hv, hws, _⟩ := marchLoop_all_masked meanDepthCtx hsl hstart hstep
  show clampQ (stepF meanDepthCtx.minCutoffValue _ * stepF _ meanDepthCtx.maxCutoffValue *
    meanDepthCtx.alphaMultiplier) 0 1 = 1
  rw [hv, hws]
  have hmv : (0 : ℚ) / max 0 (1 / 1000000) = 0 := by norm_num
  rw [hmv]
  have h1 : stepF meanDepthCtx.minCutoffValue 0 = 1 := stepF_of_ge (by norm_num [meanDepthCtx, depthCtx, blendCtx])
  have h2 : stepF 0 meanDepthCtx.maxCutoffValue = 1 := stepF_of_ge (by norm_num [meanDepthCtx, depthCtx, blendCtx])
  rw [h1, h2]
  norm_num [meanDepthCtx, depthCtx, blendCtx, clampQ]

theorem marchLoop_divByZero_absorbing (C : FragCtx) :
    ∀ n s, s.divByZero = true → (marchLoop C n s).1.divByZero = true :=
  fun n s h => marchLoop_inv C (fun s => s.divByZero = true)
    (fun s hs => by show (stepUpdate C s).1.divByZero = true; rw [stepUpdate_divByZero, hs]; rfl)
    n s h

theorem marchResult_divByZero (C : FragCtx) (hlen : C.intersectionLength = 0)
    (hn : 1 ≤ C.raySteps) : (marchResult C).1.divByZero = true := by
  unfold marchResult
  obtain ⟨m, hm⟩ : ∃ m, C.raySteps = m + 1 := ⟨C.raySteps - 1, by omega⟩
  rw [hm]
  rcases hst : stepUpdate C (initFragState C) with ⟨s1, brk⟩
  have h1 : s1.divByZero = true := by
    have hdz := stepUpdate_divByZero C (initFragState C)
    rw [hst] at hdz
    rw [hdz, hlen]
    simp [initFragState]
  cases brk
  · simpa only [marchLoop, hst] using marchLoop_divByZero_absorbing C m s1 h1
  · simpa only [marchLoop, hst] using h1

/-- For a degenerate clipped segment (`intersectionLength = 0`) every
executed step is fully masked and no accumulator (blend, mean or
normal-output) ever changes. -/
theorem marchResult_degenerate (C : FragCtx) (hlen : C.intersectionLength = 0) :
    (∀ w ∈ (marchResult C).1.weights, w = 0) ∧
    (marchResult C).1.blendR = 0 ∧ (marchResult C).1.blendG = 0 ∧
    (marchResult C).1.blendB = 0 ∧ (marchResult C).1.blendA = 0 ∧
    (marchResult C).1.valueSum = 0 ∧ (marchResult C).1.weightSum = 0 ∧
    (marchResult C).1.fragNormalAlpha = 0 := by
  have hsl0 : C.stepLength = 0 := by simp [FragCtx.stepLength, hlen]
  have hsl : 0 ≤ C.stepLength := le_of_eq hsl0.symm
  have hstart : 1 / 1000000 ≤ C.startLength + C.stepLength := by
    unfold FragCtx.startLength
    rw [hsl0]
    split_ifs <;> simp
  have hstep : ∀ cur : ℚ, 1 / 1000000 ≤ cur → C.stepWeightAt cur = 0 := by
    intro cur hcur
    refine stepWeightAt_of_beyond C ?_
    rw [hlen]
    linarith
  exact marchLoop_all_masked C hsl hstart hstep

/-- C7 (amended): for a degenerate clipped segment (`tNear == tFar`, so
`intersectionLength = 0`), every executed step is fully masked (weight 0)
and no accumulator changes: the output is fully transparent in alpha-blend
and normal-output modes, and the mean-value accumulators both stay 0 (the
mean-value pixel can nevertheless be non-transparent, because the
finalization of lines 386-394 turns the zero-weight mean 0 into alpha =
`alphaMultiplier` whenever the cutoff range contains 0 — see the
counterexample); the position-interpolation division
`currentRayLength / intersectionLength` of line 262 is performed with a
zero denominator at every step (no epsilon guards it), which the original
claim denied. -/
theorem C7_degenerate_masked (C : FragCtx) (hlen : C.intersectionLength = 0) :
    (∀ w ∈ (marchResult C).1.weights, w = 0) ∧
    blendOutput C = (⟨0, 0, 0⟩, 0) ∧
    (marchResult C).1.fragNormalAlpha = 0 ∧
    (marchResult C).1.valueSum = 0 ∧
    (marchResult C).1.weightSum = 0 ∧
    (1 ≤ C.raySteps → (marchResult C).1.divByZero = true) := by
  obtain ⟨hw, hr, hg, hb, ha, hv, hws, hna⟩ := marchResult_degenerate C hlen
  refine ⟨hw, ?_, hna, hv, hws, marchResult_divByZero C hlen⟩
  show ((⟨(marchResult C).1.blendR, (marchResult C).1.blendG, (marchResult C).1.blendB⟩ : Vec3),
    (marchResult C).1.blendA) = ((⟨0, 0, 0⟩ : Vec3), (0 : ℚ))
  rw [hr, hg, hb, ha]

/-- Witness for C7 at `degenerateCtx`: its segment is degenerate and the
march leaves the pixel fully transparent with all weights zero. -/
theorem C7_degenerate_masked_witness :
    degenerateCtx.intersectionLength = 0 ∧
    (∀ w ∈ (marchResult degenerateCtx).1.weights, w = 0) ∧
    blendOutput degenerateCtx = (⟨0, 0, 0⟩, 0) :=
  ⟨rfl, (C7_degenerate_masked degenerateCtx rfl).1,
   (C7_degenerate_masked degenerateCtx rfl).2.1⟩

/-- `degenerateCtx` in mean-value mode with a cutoff range containing 0. -/
def degenerateMeanCtx : FragCtx :=
  { degenerateCtx with renderMeanValue := true, minCutoffValue := -1 }

/-- Counterexample to C7: at the concrete degenerate context the march's
position interpolation divides `currentRayLength` by
`intersectionLength = 0` (the instrumentation flag is set), refuting "the
march performs no division by zero"; and in mean-value mode with a cutoff
range containing 0 the degenerate segment's output alpha is
`alphaMultiplier = 1`, refuting "the output pixel is fully transparent"
outside the blend and normal-output modes. -/
theorem C7_divByZero_counterexample :
    (degenerateCtx.intersectionLength = 0 ∧
      (marchResult degenerateCtx).1.divByZero = true) ∧
    (degenerateMeanCtx.intersectionLength = 0 ∧
      degenerateMeanCtx.renderMeanValue = true ∧
      (meanOutput degenerateMeanCtx).2 = 1) := by
  refine ⟨⟨rfl, marchResult_divByZero degenerateCtx rfl
    (by norm_num [degenerateCtx, blendCtx])⟩, rfl, rfl, ?_⟩
  obtain ⟨_, _, _, _, _, hv, hws, _⟩ := marchResult_degenerate degenerateMeanCtx rfl
  show clampQ (stepF degenerateMeanCtx.minCutoffValue _ * stepF _ degenerateMeanCtx.maxCutoffValue *
    degenerateMeanCtx.alphaMultiplier) 0 1 = 1
  rw [hv, hws]
  have hmv : (0 : ℚ) / max 0 (1 / 1000000) = 0 := by norm_num
  rw [hmv]
  have h1 : stepF degenerateMeanCtx.minCutoffValue 0 = 1 :=
    stepF_of_ge (by norm_num [degenerateMeanCtx, degenerateCtx, blendCtx])
  have h2 : stepF 0 degenerateMeanCtx.maxCutoffValue = 1 :=
    stepF_of_ge (by norm_num [degenerateMeanCtx, degenerateCtx, blendCtx])
  rw [h1, h2]
  norm_num [degenerateMeanCtx, degenerateCtx, blendCtx, clampQ]

/-! ### Alpha-blend invariants (C2) -/

theorem stepUpdate_blend_fields (C : FragCtx) (s : FragState)
    (hn : C.renderNormals = false) (hm : C.renderMeanValue = false) :
    (stepUpdate C s).1.blendR = s.blendR +
      (C.colorAt (s.currentRayLength + C.stepLength)).x *
        C.stepAlphaAt (s.currentRayLength + C.stepLength) * (1 - s.blendA) ∧
    (stepUpdate C s).1.blendG = s.blendG +
      (C.colorAt (s.currentRayLength + C.stepLength)).y *
        C.stepAlphaAt (s.currentRayLength + C.stepLength) * (1 - s.blendA) ∧
    (stepUpdate C s).1.blendB = s.blendB +
      (C.colorAt (s.currentRayLength + C.stepLength)).z *
        C.stepAlphaAt (s.currentRayLength + C.stepLength) * (1 - s.blendA) ∧
    (stepUpdate C s).1.blendA = s.blendA +
      (1 - s.blendA) * C.stepAlphaAt (s.currentRayLength + C.stepLength) := by
  simp [stepUpdate, hn, hm]

theorem colorAt_nonneg (C : FragCtx) (hpal : ∀ v, (C.palette v).Nonneg)
    (hl : ∀ p, (C.lights p).Nonneg) (cur : ℚ) : (C.colorAt cur).Nonneg := by
  unfold FragCtx.colorAt
  split_ifs
  · exact vecHmul_nonneg (hpal _) (hl _)
  · exact hpal _

/-- The alpha-blend state invariant: accumulated alpha in `[0, 1]` and
nonnegative color channels. -/
def BlendInv (s : FragState) : Prop :=
  0 ≤ s.blendA ∧ s.blendA ≤ 1 ∧ 0 ≤ s.blendR ∧ 0 ≤ s.blendG ∧ 0 ≤ s.blendB

theorem stepUpdate_blendInv (C : FragCtx) (s : FragState)
    (hn : C.renderNormals = false) (hm : C.renderMeanValue = false)
    (hcolor : ∀ cur, (C.colorAt cur).Nonneg)
    (hs : BlendInv s) : BlendInv (stepUpdate C s).1 ∧ s.blendA ≤ (stepUpdate C s).1.blendA := by
  obtain ⟨ha0, ha1, hr, hg, hb⟩ := hs
  obtain ⟨eR, eG, eB, eA⟩ := stepUpdate_blend_fields C s hn hm
  set cur := s.currentRayLength + C.stepLength with hcur
  obtain ⟨hα0, hα1⟩ := stepAlphaAt_mem_unit C cur
  obtain ⟨hcx, hcy, hcz⟩ := hcolor cur
  have hone : 0 ≤ 1 - s.blendA := by linarith
  have hmono : s.blendA ≤ (stepUpdate C s).1.blendA := by
    rw [eA]
    nlinarith [mul_nonneg hone hα0]
  refine ⟨⟨?_, ?_, ?_, ?_, ?_⟩, hmono⟩
  · linarith
  · rw [eA]
    nlinarith [mul_nonneg hone (by linarith : 0 ≤ 1 - C.stepAlphaAt cur)]
  · rw [eR]
    nlinarith [mul_nonneg (mul_nonneg hcx hα0) hone]
  · rw [eG]
    nlinarith [mul_nonneg (mul_nonneg hcy hα0) hone]
  · rw [eB]
    nlinarith [mul_nonneg (mul_nonneg hcz hα0) hone]

/-- C2: in alpha-blend mode, the per-step alpha is clamped to `[0, 1]`, the
accumulated alpha (updated as `a += (1-a) * sampleAlpha` from `0`) stays in
`[0, 1]` and never decreases from one step to the next, and — with a
nonnegative palette and nonnegative light colors — every accumulated color
channel is nonnegative at every step. -/
theorem C2_alpha_blend_invariants (C : FragCtx)
    (pls : List PointLight) (dls : List DirectionalLight)
    (pdot pdist ddot : Vec3 → ℕ → ℚ)
    (hn : C.renderNormals = false) (hm : C.renderMeanValue = false)
    (hlights : C.lights = fun p => addedLights pls dls (pdot p) (pdist p) (ddot p))
    (hpal : ∀ v, (C.palette v).Nonneg)
    (hpc : ∀ L ∈ pls, L.color.Nonneg)
    (hdc : ∀ L ∈ dls, L.color.Nonneg) :
    (∀ cur, 0 ≤ C.stepAlphaAt cur ∧ C.stepAlphaAt cur ≤ 1) ∧
    (∀ n, BlendInv (marchLoop C n (initFragState C)).1) ∧
    (∀ n, (marchLoop C n (initFragState C)).1.blendA ≤
      (marchLoop C (n + 1) (initFragState C)).1.blendA) := by
  have hl : ∀ p, (C.lights p).Nonneg := by
    rw [hlights]
    intro p
    exact addedLights_nonneg pls dls _ _ _ hpc hdc
  have hcolor := colorAt_nonneg C hpal hl
  have hstep : ∀ s, BlendInv s → BlendInv (stepUpdate C s).1 :=
    fun s hs => (stepUpdate_blendInv C s hn hm hcolor hs).1
  have hinit : BlendInv (initFragState C) := by
    refine ⟨le_refl 0, by norm_num [initFragState], le_refl 0, le_refl 0, le_refl 0⟩
  have hinv : ∀ n, BlendInv (marchLoop C n (initFragState C)).1 :=
    fun n => marchLoop_inv C BlendInv hstep n _ hinit
  refine ⟨stepAlphaAt_mem_unit C, hinv, ?_⟩
  intro n
  rw [marchLoop_succ_state C hn n (initFragState C)]
  exact (stepUpdate_blendInv C _ hn hm hcolor (hinv n)).2

/-- Witness for C2 at `blendCtx` (no lights, white palette): after 2 steps
the accumulated alpha lies in `[0, 1]`. -/
theorem C2_alpha_blend_invariants_witness :
    blendCtx.renderNormals = false ∧
    BlendInv (marchLoop blendCtx 2 (initFragState blendCtx)).1 :=
  ⟨rfl,
   ((C2_alpha_blend_invariants blendCtx [] [] (fun _ _ => 0) (fun _ _ => 0) (fun _ _ => 0)
      rfl rfl (by funext p; simp [addedLights, sumPointLights, sumDirLights, Vec3.add, blendCtx])
      (fun v => ⟨zero_le_one, zero_le_one, zero_le_one⟩)
      (fun L h => absurd h (List.not_mem_nil L))
      (fun L h => absurd h (List.not_mem_nil L))).2.1) 2⟩

/-! ### Atlas resampling (`updateAtlasTexture`, lines 791-874)

JS numbers in this method are embedded as `JSNum` (`NaN`, `±Infinity`, or
an exact rational): `minValue`/`maxValue` start from `±Infinity` and
`Math.min`/`Math.max` propagate `NaN`.  `THREE.DataUtils.toHalfFloat` is
abstracted as the encoding oracle `half` (it never throws).  The voxel
buffer is a total map from flat indices. -/

/-- A JS `number`: `NaN`, `±Infinity`, or a finite (exact) value. -/
inductive JSNum where
  | nan
  | inf
  | ninf
  | num (q : ℚ)
deriving DecidableEq, Repr

/-- `Math.min`: `NaN` if either argument is `NaN`, else the smaller. -/
def jsMin : JSNum → JSNum → JSNum
  | .nan, _ => .nan
  | _, .nan => .nan
  | .ninf, _ => .ninf
  | _, .ninf => .ninf
  | .inf, b => b
  | a, .inf => a
  | .num p, .num q => .num (min p q)

/-- `Math.max`: `NaN` if either argument is `NaN`, else the larger. -/
def jsMax : JSNum → JSNum → JSNum
  | .nan, _ => .nan
  | _, .nan => .nan
  | .inf, _ => .inf
  | _, .inf => .inf
  | .ninf, b => b
  | a, .ninf => a
  | .num p, .num q => .num (max p q)

/-- The uniforms destructured by `updateAtlasTexture` (lines 792-811). -/
structure AtlasCfg where
  atlasResolutionX : ℕ
  atlasResolutionY : ℕ
  atlasResolutionZ : ℕ
  volumeResolutionX : ℕ
  volumeResolutionY : ℕ
  volumeResolutionZ : ℕ
  volumeOrigin : Vec3
  voxelSize : Vec3
  timeCount : ℕ

namespace AtlasCfg

/-- `const textureSizeX = volumeResolutionX * atlasResolutionX;` (line 814). -/
def textureSizeX (A : AtlasCfg) : ℕ := A.volumeResolutionX * A.atlasResolutionX

/-- `const textureSizeY = volumeResolutionY * atlasResolutionY;` (line 815). -/
def textureSizeY (A : AtlasCfg) : ℕ := A.volumeResolutionY * A.atlasResolutionY

end AtlasCfg

/-- The flat voxel index written for timestep `t` and local voxel
`(xi, yi, zi)` (lines 832-862): block index via `%` and `/`, voxel offset
`block * perVolumeResolution + localVoxel`, row-major flattening. -/
def atlasIndex (A : AtlasCfg) (t xi yi zi : ℕ) : ℕ :=
  let volumeIndexX := t % A.atlasResolutionX
  let volumeIndexY := (t / A.atlasResolutionX) % A.atlasResolutionY
  let volumeIndexZ := t / (A.atlasResolutionX * A.atlasResolutionY)
  let xai := volumeIndexX * A.volumeResolutionX + xi
  let yai := volumeIndexY * A.volumeResolutionY + yi
  let zai := volumeIndexZ * A.volumeResolutionZ + zi
  xai + yai * A.textureSizeX + zai * A.textureSizeX * A.textureSizeY

/-- The sampler call of lines 844-852: voxel indices plus the world
position `voxelIndex * voxelSize + volumeOrigin`, and the timestep. -/
def sampleAt (A : AtlasCfg) (sampler : ℕ → ℕ → ℕ → ℚ → ℚ → ℚ → ℕ → JSNum)
    (t xi yi zi : ℕ) : JSNum :=
  sampler xi yi zi
    ((xi : ℚ) * A.voxelSize.x + A.volumeOrigin.x)
    ((yi : ℚ) * A.voxelSize.y + A.volumeOrigin.y)
    ((zi : ℚ) * A.voxelSize.z + A.volumeOrigin.z) t

/-- The iteration domain of the update loops in source order: timesteps
`start ≤ t < stop`, then `xi`, `yi`, `zi` voxel loops. -/
def updateDomain (A : AtlasCfg) (start stop : ℕ) : List (ℕ × ℕ × ℕ × ℕ) :=
  (List.range' start (stop - start)).flatMap fun t =>
    (List.range A.volumeResolutionX).flatMap fun xi =>
      (List.range A.volumeResolutionY).flatMap fun yi =>
        (List.range A.volumeResolutionZ).map fun zi => (t, xi, yi, zi)

/-- The body of the innermost voxel loop (lines 843-864): sample, track
min/max, convert and store. -/
def updateStep (A : AtlasCfg) (half : JSNum → JSNum)
    (sampler : ℕ → ℕ → ℕ → ℚ → ℚ → ℚ → ℕ → JSNum)
    (st : (ℕ → JSNum) × JSNum × JSNum) (x : ℕ × ℕ × ℕ × ℕ) :
    (ℕ → JSNum) × JSNum × JSNum :=
  let v := sampleAt A sampler x.1 x.2.1 x.2.2.1 x.2.2.2
  (Function.update st.1 (atlasIndex A x.1 x.2.1 x.2.2.1 x.2.2.2) (half v),
   jsMin st.2.1 v, jsMax st.2.2 v)

/-- `updateAtlasTexture(sampler, timeOffset, timeCount)` (lines 791-874):
iterate the requested timesteps (count clamped by the stored `timeCount`),
sample every voxel, track `minValue`/`maxValue` from `±Infinity`, store the
half-float-converted value at the computed flat index, and return the new
buffer together with `{minValue, maxValue}`. -/
def updateAtlasTexture (A : AtlasCfg) (half : JSNum → JSNum)
    (sampler : ℕ → ℕ → ℕ → ℚ → ℚ → ℚ → ℕ → JSNum)
    (voxels : ℕ → JSNum) (timeOffset timeCnt : ℕ) :
    (ℕ → JSNum) × JSNum × JSNum :=
  (updateDomain A timeOffset (timeOffset + min timeCnt A.timeCount)).foldl
    (updateStep A half sampler) (voxels, .inf, .ninf)

/-- The buffer-only fold (the `voxels[i] = toHalfFloat(value)` writes). -/
def writeFold (A : AtlasCfg) (half : JSNum → JSNum)
    (sampler : ℕ → ℕ → ℕ → ℚ → ℚ → ℚ → ℕ → JSNum)
    (vox : ℕ → JSNum) (x : ℕ × ℕ × ℕ × ℕ) : ℕ → JSNum :=
  Function.update vox (atlasIndex A x.1 x.2.1 x.2.2.1 x.2.2.2)
    (half (sampleAt A sampler x.1 x.2.1 x.2.2.1 x.2.2.2))

/-- The `minValue` fold. -/
def minFold (A : AtlasCfg) (sampler : ℕ → ℕ → ℕ → ℚ → ℚ → ℚ → ℕ → JSNum)
    (m : JSNum) (x : ℕ × ℕ × ℕ × ℕ) : JSNum :=
  jsMin m (sampleAt A sampler x.1 x.2.1 x.2.2.1 x.2.2.2)

/-- The `maxValue` fold. -/
def maxFold (A : AtlasCfg) (sampler : ℕ → ℕ → ℕ → ℚ → ℚ → ℚ → ℕ → JSNum)
    (m : JSNum) (x : ℕ × ℕ × ℕ × ℕ) : JSNum :=
  jsMax m (sampleAt A sampler x.1 x.2.1 x.2.2.1 x.2.2.2)

theorem foldl_updateStep_decompose (A : AtlasCfg) (half : JSNum → JSNum)
    (sampler : ℕ → ℕ → ℕ → ℚ → ℚ → ℚ → ℕ → JSNum) :
    ∀ (l : List (ℕ × ℕ × ℕ × ℕ)) (vox : ℕ → JSNum) (mn mx : JSNum),
      l.foldl (updateStep A half sampler) (vox, mn, mx) =
        (l.foldl (writeFold A half sampler) vox,
         l.foldl (minFold A sampler) mn,
         l.foldl (maxFold A sampler) mx) := by
  intro l
  induction l with
  | nil => intro vox mn mx; rfl
  | cons x xs ih =>
    intro vox mn mx
    simp only [List.foldl_cons]
    rw [← ih]
    rfl

theorem decompNat {B a a' q q' : ℕ} (ha : a < B) (ha' : a' < B)
    (h : a + q * B = a' + q' * B) : a = a' ∧ q = q' := by
  have hb : 0 < B := lt_of_le_of_lt (Nat.zero_le a) ha
  have h1 : (a + q * B) % B = a := by
    rw [Nat.add_mul_mod_self_right, Nat.mod_eq_of_lt ha]
  have h2 : (a' + q' * B) % B = a' := by
    rw [Nat.add_mul_mod_self_right, Nat.mod_eq_of_lt ha']
  have haa : a = a' := by rw [← h1, h, h2]
  subst haa
  refine ⟨rfl, ?_⟩
  have hq : q * B = q' * B := by omega
  exact Nat.eq_of_mul_eq_mul_right hb hq

theorem decompNat' {B a a' q q' : ℕ} (ha : a < B) (ha' : a' < B)
    (h : q * B + a = q' * B + a') : a = a' ∧ q = q' := by
  have h2 : a + q * B = a' + q' * B := by
    rw [Nat.add_comm a (q * B), Nat.add_comm a' (q' * B)]
    exact h
  exact decompNat ha ha' h2

theorem subIndex_lt {b n i v : ℕ} (hb : b < n) (hi : i < v) : b * v + i < v * n := by
  calc b * v + i < b * v + v := by omega
    _ = (b + 1) * v := by ring
    _ ≤ n * v := Nat.mul_le_mul_right v hb
    _ = v * n := Nat.mul_comm n v

/-- Distinct in-range `(t, xi, yi, zi)` tuples are written at distinct flat
indices: the atlas addressing is injective on the capacity. -/
theorem atlasIndex_inj (A : AtlasCfg)
    (hax : 0 < A.atlasResolutionX) (hay : 0 < A.atlasResolutionY)
    {t xi yi zi t' xi' yi' zi' : ℕ}
    (ht : t < A.atlasResolutionX * A.atlasResolutionY * A.atlasResolutionZ)
    (ht' : t' < A.atlasResolutionX * A.atlasResolutionY * A.atlasResolutionZ)
    (hxi : xi < A.volumeResolutionX) (hxi' : xi' < A.volumeResolutionX)
    (hyi : yi < A.volumeResolutionY) (hyi' : yi' < A.volumeResolutionY)
    (hzi : zi < A.volumeResolutionZ) (hzi' : zi' < A.volumeResolutionZ)
    (heq : atlasIndex A t xi yi zi = atlasIndex A t' xi' yi' zi') :
    t = t' ∧ xi = xi' ∧ yi = yi' ∧ zi = zi' := by
  set nX := A.atlasResolutionX
  set nY := A.atlasResolutionY
  set nZ := A.atlasResolutionZ
  set vX := A.volumeResolutionX
  set vY := A.volumeResolutionY
  set vZ := A.volumeResolutionZ
  have hbx : t % nX < nX := Nat.mod_lt t hax
  have hbx' : t' % nX < nX := Nat.mod_lt t' hax
  have hby : (t / nX) % nY < nY := Nat.mod_lt _ hay
  have hby' : (t' / nX) % nY < nY := Nat.mod_lt _ hay
  have hbz : t / (nX * nY) < nZ := by
    rw [Nat.div_lt_iff_lt_mul (Nat.mul_pos hax hay)]
    calc t < nX * nY * nZ := ht
      _ = nZ * (nX * nY) := by ring
  have hbz' : t' / (nX * nY) < nZ := by
    rw [Nat.div_lt_iff_lt_mul (Nat.mul_pos hax hay)]
    calc t' < nX * nY * nZ := ht'
      _ = nZ * (nX * nY) := by ring
  have hxa : t % nX * vX + xi < A.textureSizeX := subIndex_lt hbx hxi
  have hxa' : t' % nX * vX + xi' < A.textureSizeX := subIndex_lt hbx' hxi'
  have hya : (t / nX) % nY * vY + yi < A.textureSizeY := subIndex_lt hby hyi
  have hya' : (t' / nX) % nY * vY + yi' < A.textureSizeY := subIndex_lt hby' hyi'
  have hre : ∀ u v w : ℕ,
      u + v * A.textureSizeX + w * A.textureSizeX * A.textureSizeY =
      u + (v + w * A.textureSizeY) * A.textureSizeX := by
    intro u v w
    ring
  rw [atlasIndex, atlasIndex, hre, hre] at heq
  obtain ⟨hx1, hx2⟩ := decompNat hxa hxa' heq
  obtain ⟨hy1, hz1⟩ := decompNat hya hya' hx2
  obtain ⟨hxieq, hbxeq⟩ := decompNat' hxi hxi' hx1
  obtain ⟨hyieq, hbyeq⟩ := decompNat' hyi hyi' hy1
  obtain ⟨hzieq, hbzeq⟩ := decompNat' hzi hzi' hz1
  refine ⟨?_, hxieq, hyieq, hzieq⟩
  have hdd : t / nX / nY = t / (nX * nY) := Nat.div_div_eq_div_mul t nX nY
  have hdd' : t' / nX / nY = t' / (nX * nY) := Nat.div_div_eq_div_mul t' nX nY
  have hrec : t = t % nX + nX * ((t / nX) % nY + nY * (t / (nX * nY))) := by
    rw [← hdd]
    rw [Nat.mul_add, ← Nat.mul_assoc]
    rw [show t % nX + (nX * ((t / nX) % nY) + nX * nY * (t / nX / nY)) =
      t % nX + nX * ((t / nX) % nY + nY * (t / nX / nY)) by ring]
    rw [Nat.mod_add_div (t / nX) nY]
    rw [Nat.mod_add_div t nX]
  have hrec' : t' = t' % nX + nX * ((t' / nX) % nY + nY * (t' / (nX * nY))) := by
    rw [← hdd']
    rw [Nat.mul_add, ← Nat.mul_assoc]
    rw [show t' % nX + (nX * ((t' / nX) % nY) + nX * nY * (t' / nX / nY)) =
      t' % nX + nX * ((t' / nX) % nY + nY * (t' / nX / nY)) by ring]
    rw [Nat.mod_add_div (t' / nX) nY]
    rw [Nat.mod_add_div t' nX]
  rw [hrec, hrec', hbxeq, hbyeq, hbzeq]

theorem mem_updateDomain (A : AtlasCfg) (start stop : ℕ) (t xi yi zi : ℕ) :
    (t, xi, yi, zi) ∈ updateDomain A start stop ↔
      start ≤ t ∧ t < stop ∧ xi < A.volumeResolutionX ∧
      yi < A.volumeResolutionY ∧ zi < A.volumeResolutionZ := by
  unfold updateDomain
  simp only [List.mem_flatMap, List.mem_map, List.mem_range, List.mem_range'_1, Prod.mk.injEq]
  constructor
  · rintro ⟨t0, ⟨ht1, ht2⟩, xi0, hxi, yi0, hyi, zi0, hzi, he1, he2, he3, he4⟩
    subst he1; subst he2; subst he3; subst he4
    exact ⟨ht1, by omega, hxi, hyi, hzi⟩
  · rintro ⟨h1, h2, h3, h4, h5⟩
    exact ⟨t, ⟨h1, by omega⟩, xi, h3, yi, h4, zi, h5, rfl, rfl, rfl, rfl⟩

theorem foldl_write_not_mem (A : AtlasCfg) (half : JSNum → JSNum)
    (sampler : ℕ → ℕ → ℕ → ℚ → ℚ → ℚ → ℕ → JSNum) :
    ∀ (l : List (ℕ × ℕ × ℕ × ℕ)) (vox : ℕ → JSNum) (j : ℕ),
      (∀ y ∈ l, atlasIndex A y.1 y.2.1 y.2.2.1 y.2.2.2 ≠ j) →
      l.foldl (writeFold A half sampler) vox j = vox j := by
  intro l
  induction l with
  | nil => intro vox j _; rfl
  | cons a l' ih =>
    intro vox j h
    simp only [List.foldl_cons]
    rw [ih _ j fun y hy => h y (List.mem_cons_of_mem a hy)]
    simp only [writeFold]
    exact Function.update_noteq (Ne.symm (h a (List.mem_cons_self a l'))) _ vox

theorem foldl_write_mem (A : AtlasCfg) (half : JSNum → JSNum)
    (sampler : ℕ → ℕ → ℕ → ℚ → ℚ → ℚ → ℕ → JSNum) :
    ∀ (l : List (ℕ × ℕ × ℕ × ℕ)) (vox : ℕ → JSNum) (x : ℕ × ℕ × ℕ × ℕ),
      x ∈ l →
      (∀ y ∈ l, atlasIndex A y.1 y.2.1 y.2.2.1 y.2.2.2 =
        atlasIndex A x.1 x.2.1 x.2.2.1 x.2.2.2 → y = x) →
      l.foldl (writeFold A half sampler) vox (atlasIndex A x.1 x.2.1 x.2.2.1 x.2.2.2) =
        half (sampleAt A sampler x.1 x.2.1 x.2.2.1 x.2.2.2) := by
  intro l
  induction l with
  | nil => intro vox x hx; exact absurd hx (List.not_mem_nil x)
  | cons a l' ih =>
    intro vox x hx huniq
    by_cases hxl : x ∈ l'
    · simp only [List.foldl_cons]
      exact ih _ x hxl fun y hy => huniq y (List.mem_cons_of_mem a hy)
    · have hxa : x = a := by
        rcases List.mem_cons.mp hx with h | h
        · exact h
        · exact absurd h hxl
      subst hxa
      simp only [List.foldl_cons]
      have hnone : ∀ y ∈ l', atlasIndex A y.1 y.2.1 y.2.2.1 y.2.2.2 ≠
          atlasIndex A x.1 x.2.1 x.2.2.1 x.2.2.2 := by
        intro y hy hkey
        exact hxl (huniq y (List.mem_cons_of_mem x hy) hkey ▸ hy)
      rw [foldl_write_not_mem A half sampler l' _ _ hnone]
      simp only [writeFold]
      exact Function.update_same _ _ _

theorem jsMin_nan_left (b : JSNum) : jsMin .nan b = .nan := by
  cases b <;> rfl

theorem jsMax_nan_left (b : JSNum) : jsMax .nan b = .nan := by
  cases b <;> rfl

theorem jsMin_nan_right : ∀ a : JSNum, jsMin a .nan = .nan := by
  intro a
  cases a <;> rfl

theorem jsMax_nan_right : ∀ a : JSNum, jsMax a .nan = .nan := by
  intro a
  cases a <;> rfl

theorem foldl_jsMin_from_nan (f : ℕ × ℕ × ℕ × ℕ → JSNum) :
    ∀ l : List (ℕ × ℕ × ℕ × ℕ), l.foldl (fun m x => jsMin m (f x)) .nan = .nan := by
  intro l
  induction l with
  | nil => rfl
  | cons a l' ih => simpa only [List.foldl_cons, jsMin_nan_left] using ih

theorem foldl_jsMax_from_nan (f : ℕ × ℕ × ℕ × ℕ → JSNum) :
    ∀ l : List (ℕ × ℕ × ℕ × ℕ), l.foldl (fun m x => jsMax m (f x)) .nan = .nan := by
  intro l
  induction l with
  | nil => rfl
  | cons a l' ih => simpa only [List.foldl_cons, jsMax_nan_left] using ih

theorem foldl_jsMin_nan (f : ℕ × ℕ × ℕ × ℕ → JSNum) :
    ∀ (l : List (ℕ × ℕ × ℕ × ℕ)) (acc : JSNum) (x : ℕ × ℕ × ℕ × ℕ),
      x ∈ l → f x = .nan → l.foldl (fun m y => jsMin m (f y)) acc = .nan := by
  intro l
  induction l with
  | nil => intro acc x hx; exact absurd hx (List.not_mem_nil x)
  | cons a l' ih =>
    intro acc x hx hnan
    rcases List.mem_cons.mp hx with h | h
    · subst h
      simp only [List.foldl_cons, hnan, jsMin_nan_right]
      exact foldl_jsMin_from_nan f l'
    · simp only [List.foldl_cons]
      exact ih _ x h hnan

theorem foldl_jsMax_nan (f : ℕ × ℕ × ℕ × ℕ → JSNum) :
    ∀ (l : List (ℕ × ℕ × ℕ × ℕ)) (acc : JSNum) (x : ℕ × ℕ × ℕ × ℕ),
      x ∈ l → f x = .nan → l.foldl (fun m y => jsMax m (f y)) acc = .nan := by
  intro l
  induction l with
  | nil => intro acc x hx; exact absurd hx (List.not_mem_nil x)
  | cons a l' ih =>
    intro acc x hx hnan
    rcases List.mem_cons.mp hx with h | h
    · subst h
      simp only [List.foldl_cons, hnan, jsMax_nan_right]
      exact foldl_jsMax_from_nan f l'
    · simp only [List.foldl_cons]
      exact ih _ x h hnan

theorem foldl_min_le (l : List ℚ) : ∀ a : ℚ,
    l.foldl min a ≤ a ∧ ∀ q ∈ l, l.foldl min a ≤ q := by
  induction l with
  | nil => intro a; exact ⟨le_refl a, fun q hq => absurd hq (List.not_mem_nil q)⟩
  | cons p l' ih =>
    intro a
    simp only [List.foldl_cons]
    obtain ⟨h1, h2⟩ := ih (min a p)
    refine ⟨le_trans h1 (min_le_left a p), fun q hq => ?_⟩
    rcases List.mem_cons.mp hq with h | h
    · rw [h]
      exact le_trans h1 (min_le_right a p)
    · exact h2 q h

theorem foldl_min_mem (l : List ℚ) : ∀ a : ℚ,
    l.foldl min a = a ∨ l.foldl min a ∈ l := by
  induction l with
  | nil => intro a; exact Or.inl rfl
  | cons p l' ih =>
    intro a
    simp only [List.foldl_cons]
    rcases ih (min a p) with h | h
    · rcases le_total a p with hap | hap
      · exact Or.inl (by rw [h, min_eq_left hap])
      · refine Or.inr ?_
        rw [h, min_eq_right hap]
        exact List.mem_cons_self p l'
    · exact Or.inr (List.mem_cons_of_mem p h)

theorem foldl_max_ge (l : List ℚ) : ∀ a : ℚ,
    a ≤ l.foldl max a ∧ ∀ q ∈ l, q ≤ l.foldl max a := by
  induction l with
  | nil => intro a; exact ⟨le_refl a, fun q hq => absurd hq (List.not_mem_nil q)⟩
  | cons p l' ih =>
    intro a
    simp only [List.foldl_cons]
    obtain ⟨h1, h2⟩ := ih (max a p)
    refine ⟨le_trans (le_max_left a p) h1, fun q hq => ?_⟩
    rcases List.mem_cons.mp hq with h | h
    · rw [h]
      exact le_trans (le_max_right a p) h1
    · exact h2 q h

theorem foldl_max_mem (l : List ℚ) : ∀ a : ℚ,
    l.foldl max a = a ∨ l.foldl max a ∈ l := by
  induction l with
  | nil => intro a; exact Or.inl rfl
  | cons p l' ih =>
    intro a
    simp only [List.foldl_cons]
    rcases ih (max a p) with h | h
    · rcases le_total a p with hap | hap
      · refine Or.inr ?_
        rw [h, max_eq_right hap]
        exact List.mem_cons_self p l'
      · exact Or.inl (by rw [h, max_eq_left hap])
    · exact Or.inr (List.mem_cons_of_mem p h)

/-- A sampler that always returns a finite number (wrapping an exact
rational-valued sampler). -/
def numSampler (samplerQ : ℕ → ℕ → ℕ → ℚ → ℚ → ℚ → ℕ → ℚ) :
    ℕ → ℕ → ℕ → ℚ → ℚ → ℚ → ℕ → JSNum :=
  fun xi yi zi x y z t => .num (samplerQ xi yi zi x y z t)

/-- The rational value sampled for `(t, xi, yi, zi)` under a numeric sampler. -/
def sampleAtQ (A : AtlasCfg) (samplerQ : ℕ → ℕ → ℕ → ℚ → ℚ → ℚ → ℕ → ℚ)
    (t xi yi zi : ℕ) : ℚ :=
  samplerQ xi yi zi
    ((xi : ℚ) * A.voxelSize.x + A.volumeOrigin.x)
    ((yi : ℚ) * A.voxelSize.y + A.volumeOrigin.y)
    ((zi : ℚ) * A.voxelSize.z + A.volumeOrigin.z) t

theorem foldl_minFold_from_num (A : AtlasCfg)
    (samplerQ : ℕ → ℕ → ℕ → ℚ → ℚ → ℚ → ℕ → ℚ) :
    ∀ (l : List (ℕ × ℕ × ℕ × ℕ)) (a : ℚ),
      l.foldl (minFold A (numSampler samplerQ)) (.num a) =
        .num (l.foldl (fun b x => min b (sampleAtQ A samplerQ x.1 x.2.1 x.2.2.1 x.2.2.2)) a) := by
  intro l
  induction l with
  | nil => intro a; rfl
  | cons p rest ih =>
    intro a
    simp only [List.foldl_cons]
    exact ih (min a (sampleAtQ A samplerQ p.1 p.2.1 p.2.2.1 p.2.2.2))

theorem foldl_maxFold_from_num (A : AtlasCfg)
    (samplerQ : ℕ → ℕ → ℕ → ℚ → ℚ → ℚ → ℕ → ℚ) :
    ∀ (l : List (ℕ × ℕ × ℕ × ℕ)) (a : ℚ),
      l.foldl (maxFold A (numSampler samplerQ)) (.num a) =
        .num (l.foldl (fun b x => max b (sampleAtQ A samplerQ x.1 x.2.1 x.2.2.1 x.2.2.2)) a) := by
  intro l
  induction l with
  | nil => intro a; rfl
  | cons p rest ih =>
    intro a
    simp only [List.foldl_cons]
    exact ih (max a (sampleAtQ A samplerQ p.1 p.2.1 p.2.2.1 p.2.2.2))

/-- C4: for a requested timestep range contained in `[0, timeCount)` (and
an atlas whose capacity holds `timeCount`), `updateAtlasTexture` writes
each sampled value exactly at the flat index determined by the block
`(t % nx, (t/nx) % ny, t/(nx*ny))` and the per-volume voxel offset, leaves
every flat index outside the written blocks unchanged, and returns the
minimum and the maximum of all sampled values. -/
theorem C4_updateAtlasTexture_resample (A : AtlasCfg) (half : JSNum → JSNum)
    (samplerQ : ℕ → ℕ → ℕ → ℚ → ℚ → ℚ → ℕ → ℚ) (voxels : ℕ → JSNum)
    (timeOffset timeCnt : ℕ)
    (hrange : timeOffset + timeCnt ≤ A.timeCount)
    (hcap : A.timeCount ≤ A.atlasResolutionX * A.atlasResolutionY * A.atlasResolutionZ)
    (hax : 0 < A.atlasResolutionX) (hay : 0 < A.atlasResolutionY)
    (hvx : 0 < A.volumeResolutionX) (hvy : 0 < A.volumeResolutionY)
    (hvz : 0 < A.volumeResolutionZ) (hcnt : 0 < timeCnt) :
    (∀ t xi yi zi, timeOffset ≤ t → t < timeOffset + timeCnt →
      xi < A.volumeResolutionX → yi < A.volumeResolutionY → zi < A.volumeResolutionZ →
      (updateAtlasTexture A half (numSampler samplerQ) voxels timeOffset timeCnt).1
          (atlasIndex A t xi yi zi) =
        half (.num (sampleAtQ A samplerQ t xi yi zi))) ∧
    (∀ j : ℕ, (∀ t xi yi zi, timeOffset ≤ t → t < timeOffset + timeCnt →
        xi < A.volumeResolutionX → yi < A.volumeResolutionY → zi < A.volumeResolutionZ →
        atlasIndex A t xi yi zi ≠ j) →
      (updateAtlasTexture A half (numSampler samplerQ) voxels timeOffset timeCnt).1 j =
        voxels j) ∧
    (∃ m M : ℚ,
      (updateAtlasTexture A half (numSampler samplerQ) voxels timeOffset timeCnt).2.1 = .num m ∧
      (updateAtlasTexture A half (numSampler samplerQ) voxels timeOffset timeCnt).2.2 = .num M ∧
      (∃ x ∈ updateDomain A timeOffset (timeOffset + timeCnt),
        m = sampleAtQ A samplerQ x.1 x.2.1 x.2.2.1 x.2.2.2) ∧
      (∀ x ∈ updateDomain A timeOffset (timeOffset + timeCnt),
        m ≤ sampleAtQ A samplerQ x.1 x.2.1 x.2.2.1 x.2.2.2) ∧
      (∃ x ∈ updateDomain A timeOffset (timeOffset + timeCnt),
        M = sampleAtQ A samplerQ x.1 x.2.1 x.2.2.1 x.2.2.2) ∧
      (∀ x ∈ updateDomain A timeOffset (timeOffset + timeCnt),
        sampleAtQ A samplerQ x.1 x.2.1 x.2.2.1 x.2.2.2 ≤ M)) := by
  have hstop : min timeCnt A.timeCount = timeCnt := min_eq_left (by omega)
  have hdecomp : updateAtlasTexture A half (numSampler samplerQ) voxels timeOffset timeCnt =
      ((updateDomain A timeOffset (timeOffset + timeCnt)).foldl
          (writeFold A half (numSampler samplerQ)) voxels,
       (updateDomain A timeOffset (timeOffset + timeCnt)).foldl
          (minFold A (numSampler samplerQ)) .inf,
       (updateDomain A timeOffset (timeOffset + timeCnt)).foldl
          (maxFold A (numSampler samplerQ)) .ninf) := by
    unfold updateAtlasTexture
    rw [hstop]
    exact foldl_updateStep_decompose A half (numSampler samplerQ) _ voxels _ _
  have hargbound : ∀ y ∈ updateDomain A timeOffset (timeOffset + timeCnt),
      y.1 < A.atlasResolutionX * A.atlasResolutionY * A.atlasResolutionZ ∧
      y.2.1 < A.volumeResolutionX ∧ y.2.2.1 < A.volumeResolutionY ∧
      y.2.2.2 < A.volumeResolutionZ := by
    rintro ⟨t', xi', yi', zi'⟩ hy
    obtain ⟨h1, h2, h3, h4, h5⟩ := (mem_updateDomain A _ _ t' xi' yi' zi').mp hy
    exact ⟨by omega, h3, h4, h5⟩
  refine ⟨?_, ?_, ?_⟩
  · intro t xi yi zi h1 h2 h3 h4 h5
    rw [hdecomp]
    have hmem : ((t, xi, yi, zi) : ℕ × ℕ × ℕ × ℕ) ∈
        updateDomain A timeOffset (timeOffset + timeCnt) :=
      (mem_updateDomain A _ _ t xi yi zi).mpr ⟨h1, h2, h3, h4, h5⟩
    have huniq : ∀ y ∈ updateDomain A timeOffset (timeOffset + timeCnt),
        atlasIndex A y.1 y.2.1 y.2.2.1 y.2.2.2 = atlasIndex A t xi yi zi →
        y = (t, xi, yi, zi) := by
      rintro ⟨t', xi', yi', zi'⟩ hy hkey
      obtain ⟨hb1, hb2, hb3, hb4⟩ := hargbound _ hy
      obtain ⟨e1, e2, e3, e4⟩ :=
        atlasIndex_inj A hax hay hb1 (by omega) hb2 h3 hb3 h4 hb4 h5 hkey
      show (t', xi', yi', zi') = ((t, xi, yi, zi) : ℕ × ℕ × ℕ × ℕ)
      simp only [Prod.mk.injEq]
      exact ⟨e1, e2, e3, e4⟩
    exact foldl_write_mem A half (numSampler samplerQ) _ voxels (t, xi, yi, zi) hmem huniq
  · intro j hj
    rw [hdecomp]
    refine foldl_write_not_mem A half (numSampler samplerQ) _ voxels j ?_
    rintro ⟨t', xi', yi', zi'⟩ hy
    obtain ⟨h1, h2, h3, h4, h5⟩ := (mem_updateDomain A _ _ t' xi' yi' zi').mp hy
    exact hj t' xi' yi' zi' h1 h2 h3 h4 h5
  · have hne : updateDomain A timeOffset (timeOffset + timeCnt) ≠ [] :=
      List.ne_nil_of_mem ((mem_updateDomain A _ _ timeOffset 0 0 0).mpr
        ⟨le_refl _, by omega, hvx, hvy, hvz⟩)
    obtain ⟨p, rest, hpl⟩ := List.exists_cons_of_ne_nil hne
    rw [hdecomp]
    rw [hpl]
    simp only [List.foldl_cons]
    have hminstep : minFold A (numSampler samplerQ) JSNum.inf p =
        .num (sampleAtQ A samplerQ p.1 p.2.1 p.2.2.1 p.2.2.2) := rfl
    have hmaxstep : maxFold A (numSampler samplerQ) JSNum.ninf p =
        .num (sampleAtQ A samplerQ p.1 p.2.1 p.2.2.1 p.2.2.2) := rfl
    rw [hminstep, hmaxstep, foldl_minFold_from_num, foldl_maxFold_from_num]
    set F : ℕ × ℕ × ℕ × ℕ → ℚ :=
      fun x => sampleAtQ A samplerQ x.1 x.2.1 x.2.2.1 x.2.2.2 with hF
    have hmapmin : rest.foldl (fun b x => min b (F x)) (F p) = (rest.map F).foldl min (F p) :=
      (List.foldl_map F min rest (F p)).symm
    have hmapmax : rest.foldl (fun b x => max b (F x)) (F p) = (rest.map F).foldl max (F p) :=
      (List.foldl_map F max rest (F p)).symm
    refine ⟨(rest.map F).foldl min (F p), (rest.map F).foldl max (F p),
      by rw [hmapmin], by rw [hmapmax], ?_, ?_, ?_, ?_⟩
    · rcases foldl_min_mem (rest.map F) (F p) with h | h
      · exact ⟨p, List.mem_cons_self p rest, h⟩
      · obtain ⟨x, hx, hfx⟩ := List.mem_map.mp h
        exact ⟨x, List.mem_cons_of_mem p hx, hfx.symm⟩
    · intro x hx
      rcases List.mem_cons.mp hx with h | h
      · rw [h]
        exact (foldl_min_le (rest.map F) (F p)).1
      · exact (foldl_min_le (rest.map F) (F p)).2 (F x) (List.mem_map_of_mem F h)
    · rcases foldl_max_mem (rest.map F) (F p) with h | h
      · exact ⟨p, List.mem_cons_self p rest, h⟩
      · obtain ⟨x, hx, hfx⟩ := List.mem_map.mp h
        exact ⟨x, List.mem_cons_of_mem p hx, hfx.symm⟩
    · intro x hx
      rcases List.mem_cons.mp hx with h | h
      · rw [h]
        exact (foldl_max_ge (rest.map F) (F p)).1
      · exact (foldl_max_ge (rest.map F) (F p)).2 (F x) (List.mem_map_of_mem F h)

/-- A 1-timestep, 1-voxel atlas configuration. -/
def unitAtlasCfg : AtlasCfg := ⟨1, 1, 1, 1, 1, 1, ⟨0, 0, 0⟩, ⟨1, 1, 1⟩, 1⟩

/-- Witness for C4 at `unitAtlasCfg` with the constant sampler `5`: the
single sample lands at flat index `atlasIndex 0 0 0 0`, and an index never
written (here `7`) keeps its prior contents. -/
theorem C4_updateAtlasTexture_resample_witness :
    (updateAtlasTexture unitAtlasCfg id (numSampler fun _ _ _ _ _ _ _ => 5)
        (fun _ => .num 0) 0 1).1 (atlasIndex unitAtlasCfg 0 0 0 0) = .num 5 ∧
    (updateAtlasTexture unitAtlasCfg id (numSampler fun _ _ _ _ _ _ _ => 5)
        (fun _ => .num 0) 0 1).1 7 = .num 0 := by
  have hmain := C4_updateAtlasTexture_resample unitAtlasCfg id
    (fun _ _ _ _ _ _ _ => 5) (fun _ => .num 0) 0 1
    (by decide) (by decide) (by decide) (by decide) (by decide) (by decide) (by decide)
    (by decide)
  refine ⟨?_, ?_⟩
  · exact hmain.1 0 0 0 0 (le_refl 0) (by decide) (by decide) (by decide) (by decide)
  · refine hmain.2.1 7 ?_
    intro t xi yi zi h1 h2 h3 h4 h5
    have he1 : t = 0 := by omega
    have he2 : xi = 0 := by
      have : xi < 1 := h3
      omega
    have he3 : yi = 0 := by
      have : yi < 1 := h4
      omega
    have he4 : zi = 0 := by
      have : zi < 1 := h5
      omega
    subst he1; subst he2; subst he3; subst he4
    decide

/-- C9 (amended): a non-numeric (`NaN`) sampler value for any voxel in the
requested range is not detected: `updateAtlasTexture` completes normally
(it has no failure path — nothing in lines 791-874 throws) and the `NaN`
propagates into both returned extrema through `Math.min`/`Math.max`. -/
theorem C9_nan_not_fatal (A : AtlasCfg) (half : JSNum → JSNum)
    (sampler : ℕ → ℕ → ℕ → ℚ → ℚ → ℚ → ℕ → JSNum) (voxels : ℕ → JSNum)
    (timeOffset timeCnt : ℕ) (x : ℕ × ℕ × ℕ × ℕ)
    (hx : x ∈ updateDomain A timeOffset (timeOffset + min timeCnt A.timeCount))
    (hnan : sampleAt A sampler x.1 x.2.1 x.2.2.1 x.2.2.2 = .nan) :
    (updateAtlasTexture A half sampler voxels timeOffset timeCnt).2.1 = .nan ∧
    (updateAtlasTexture A half sampler voxels timeOffset timeCnt).2.2 = .nan := by
  have hdecomp := foldl_updateStep_decompose A half sampler
    (updateDomain A timeOffset (timeOffset + min timeCnt A.timeCount)) voxels .inf .ninf
  constructor
  · show (updateAtlasTexture A half sampler voxels timeOffset timeCnt).2.1 = .nan
    unfold updateAtlasTexture
    rw [hdecomp]
    exact foldl_jsMin_nan (fun y => sampleAt A sampler y.1 y.2.1 y.2.2.1 y.2.2.2)
      _ .inf x hx hnan
  · show (updateAtlasTexture A half sampler voxels timeOffset timeCnt).2.2 = .nan
    unfold updateAtlasTexture
    rw [hdecomp]
    exact foldl_jsMax_nan (fun y => sampleAt A sampler y.1 y.2.1 y.2.2.1 y.2.2.2)
      _ .ninf x hx hnan

/-- Witness for C9's amended statement at `unitAtlasCfg` with the constant
`NaN` sampler. -/
theorem C9_nan_not_fatal_witness :
    (((0, 0, 0, 0) : ℕ × ℕ × ℕ × ℕ) ∈
      updateDomain unitAtlasCfg 0 (0 + min 1 unitAtlasCfg.timeCount)) ∧
    (updateAtlasTexture unitAtlasCfg id (fun _ _ _ _ _ _ _ => .nan)
        (fun _ => .num 0) 0 1).2.1 = .nan :=
  ⟨by decide,
   (C9_nan_not_fatal unitAtlasCfg id (fun _ _ _ _ _ _ _ => .nan) (fun _ => .num 0)
      0 1 (0, 0, 0, 0) (by decide) rfl).1⟩

/-- Counterexample to C9: at the concrete one-voxel atlas with a sampler
returning `NaN`, the operation completes normally — no error is surfaced
(the embedded function is total, mirroring the source, which has no check
or `throw`): the returned min and max are `NaN` and the converted value is
written to the buffer. -/
theorem C9_nan_completes_counterexample :
    (updateAtlasTexture unitAtlasCfg id (fun _ _ _ _ _ _ _ => .nan)
        (fun _ => .num 0) 0 1).2.1 = .nan ∧
    (updateAtlasTexture unitAtlasCfg id (fun _ _ _ _ _ _ _ => .nan)
        (fun _ => .num 0) 0 1).2.2 = .nan ∧
    (updateAtlasTexture unitAtlasCfg id (fun _ _ _ _ _ _ _ => .nan)
        (fun _ => .num 0) 0 1).1 0 = .nan := by
  refine ⟨?_, ?_, ?_⟩ <;> decide
